import Mathlib

/-!
# go-lib: cache wrapper, HTTP client pipeline, mock layer, string tags

A shallow embedding of `cache/cache.go`, `rest/{client,request,do,mock}.go` and
`string_utils/strings.go`, followed by the properties proved about it.

Conventions of the embedding

* A Go `string` is a Lean `String`; a `[]byte` is written as the string with the same
  bytes, wrapped in `Option` where the slice may be `nil`.
* A Go `interface{}` is an `Option`: `none` is the `nil` interface.
* A Go map with string keys is a lookup function `String → Option V`.
* Time is explicit: an instant is an `Int` (nanoseconds, as `UnixNano`), a
  `time.Duration` is an `Int` (nanoseconds).
* Diagnostic output through the `log` package is not part of the state.
-/

namespace GoLib

/-- A Go map with string keys, seen through its lookup. -/
abbrev GoMap (V : Type) := String → Option V

/-- The map with no entry. -/
def GoMap.empty {V : Type} : GoMap V := fun _ => none

/-- The assignment `m[k] = v`. -/
def GoMap.set {V : Type} (m : GoMap V) (k : String) (v : V) : GoMap V :=
  fun k' => if k' = k then some v else m k'

/-- The removal of key `k` (no effect when `k` is not present). -/
def GoMap.remove {V : Type} (m : GoMap V) (k : String) : GoMap V :=
  fun k' => if k' = k then none else m k'

/-! ## package cache -/

namespace cache

/-- Modelled from the spec: an entry of the third-party engine (`ccache.Item`), which is
not part of the sources. It holds the stored value and the instant at which it
expires. -/
structure Item (α : Type) where
  value : Option α
  expires : Int

/-- Modelled from the spec: `Item.Expired()`, read at the instant `now`: the entry is
expired once its expiry instant lies strictly in the past. -/
def Item.Expired {α : Type} (i : Item α) (now : Int) : Bool :=
  decide (i.expires < now)

/-- Modelled from the spec: `Item.Value()`. -/
def Item.Value {α : Type} (i : Item α) : Option α :=
  i.value

/-- Modelled from the spec: the third-party engine (`ccache.Cache`) as the bounded
key/value store with expiry that `MemoryCache` drives through `Get`, `Set` and
`Delete`. `list` holds the keys from the most recently set to the least recently set.
The engine prunes in a background worker, after a `Set`, not inside it: that step is
`CCache.gc`. -/
structure CCache (α : Type) where
  maxSize : Int
  itemsToPrune : Nat
  items : GoMap (Item α)
  list : List String

/-- Modelled from the spec: `ccache.Cache.Get`; it hands out the entry whether or not
it is expired, and nothing for a missing key. -/
def CCache.Get {α : Type} (c : CCache α) (key : String) : Option (Item α) :=
  c.items key

/-- Modelled from the spec: `ccache.Cache.Set` at the instant `now`; the entry replaces
whatever the key held, expires at `now + duration` and becomes the most recent. -/
def CCache.Set {α : Type} (c : CCache α) (now : Int) (key : String) (value : Option α)
    (duration : Int) : CCache α :=
  { c with
    items := c.items.set key { value := value, expires := now + duration }
    list := key :: c.list.filter (fun k => !decide (k = key)) }

/-- Modelled from the spec: `ccache.Cache.Delete`; a missing key is not an error and
changes nothing. -/
def CCache.Delete {α : Type} (c : CCache α) (key : String) : CCache α :=
  match c.items key with
  | some _ =>
    { c with
      items := c.items.remove key
      list := c.list.filter (fun k => !decide (k = key)) }
  | none => c

/-- Modelled from the spec: the pruning step of the engine's worker. Once more than
`maxSize` entries are held, the `itemsToPrune` least recently set entries are evicted,
all of them when fewer are held, the newest included. -/
def CCache.gc {α : Type} (c : CCache α) : CCache α :=
  if c.maxSize < (c.list.length : Int) then
    { c with
      items := fun k =>
        if (c.list.drop (c.list.length - c.itemsToPrune)).contains k then none else c.items k
      list := c.list.take (c.list.length - c.itemsToPrune) }
  else c

/-- The struct `MemoryCache`. -/
structure MemoryCache (α : Type) where
  name : String
  cCache : CCache α
  defaultTTL : Int
  returnExpired : Bool

/-- The constructor `NewMemoryCache`. -/
def NewMemoryCache {α : Type} (name : String) (size : Int) (ttl : Int)
    (returnExpired : Bool) : MemoryCache α :=
  { name := name
    defaultTTL := ttl
    cCache := { maxSize := size, itemsToPrune := 100, items := GoMap.empty, list := [] }
    returnExpired := returnExpired }

/-- The method `MemoryCache.Get`. The two calls of `item.Expired()` read the clock one
after the other: `now` is the first reading, `now2` the second. -/
def MemoryCache.Get {α : Type} (impl : MemoryCache α) (now now2 : Int) (key : String) :
    Bool × Option α :=
  let item := impl.cCache.Get key
  match item with
  | some it =>
    if !it.Expired now then
      (false, it.Value)
    else if impl.returnExpired then
      (it.Expired now2, it.Value)
    else
      (false, none)
  | none => (false, none)

/-- The method `MemoryCache.Save`, called at the instant `now`. -/
def MemoryCache.Save {α : Type} (impl : MemoryCache α) (now : Int) (key : String)
    (item : Option α) : MemoryCache α :=
  { impl with cCache := impl.cCache.Set now key item impl.defaultTTL }

/-- The method `MemoryCache.SaveWithTTL`, called at the instant `now`. -/
def MemoryCache.SaveWithTTL {α : Type} (impl : MemoryCache α) (now : Int) (key : String)
    (item : Option α) (ttl : Int) : MemoryCache α :=
  { impl with cCache := impl.cCache.Set now key item ttl }

/-- The method `MemoryCache.Delete`. -/
def MemoryCache.Delete {α : Type} (impl : MemoryCache α) (key : String) : MemoryCache α :=
  { impl with cCache := impl.cCache.Delete key }

/-- The pruning step of the engine's worker, on the cache: it runs on its own, after a
`Save`, and is no call of the interface. -/
def MemoryCache.prune {α : Type} (impl : MemoryCache α) : MemoryCache α :=
  { impl with cCache := impl.cCache.gc }

end cache

/-! ## package string_utils -/

namespace string_utils

/-- The call `strings.Split(s, sep)` for a separator of one ASCII byte, on the
characters of `s`: the pieces between the occurrences of `sep`, always at least one. -/
def Split : List Char → Char → List (List Char)
  | [], _ => [[]]
  | c :: cs, sep =>
    if c = sep then [] :: Split cs sep
    else
      match Split cs sep with
      | [] => [[c]]
      | p :: ps => (c :: p) :: ps

/-- The call `strings.Contains(s, sep)` for a separator of one ASCII byte. -/
def Contains (s : List Char) (sep : Char) : Bool :=
  s.any (fun c => decide (c = sep))

/-- The call `strings.Index(s, sep)` for a separator of one ASCII byte that occurs in
`s`: the number of characters before its first occurrence. -/
def Index (s : List Char) (sep : Char) : Nat :=
  (s.takeWhile (fun c => !decide (c = sep))).length

/-- The function `GetTagsFromString`. -/
def GetTagsFromString (str : String) : List String :=
  (Split str.data '{').foldl
    (fun tags tag =>
      if Contains tag '}' then tags ++ [String.mk (tag.take (Index tag '}'))] else tags)
    []

/-- The scan the documentation describes: a tag is the text between a `{` and the next
`}` after it, and the scan resumes after that `}`. The state is `some acc` after an
opening brace (`acc` holds the characters read since that brace, latest first) and
`none` outside a tag. -/
def scanTags : Option (List Char) → List Char → List String
  | _, [] => []
  | none, c :: cs => if c = '{' then scanTags (some []) cs else scanTags none cs
  | some acc, c :: cs =>
    if c = '}' then String.mk acc.reverse :: scanTags none cs
    else scanTags (some (c :: acc)) cs

/-- The tags of a string as the documentation describes them: the substrings between
a `{` and the next `}`, left to right, without overlap. -/
def wrappedTags (str : String) : List String :=
  scanTags none str.data

/-- What one piece of the split adds to the tags in `GetTagsFromString`: its text up
to the first `}`, when it has one. -/
def pieceTag (tag : List Char) : List String :=
  if Contains tag '}' then [String.mk (tag.take (Index tag '}'))] else []

/-- A scan from left to right in which a `{` always opens a tag afresh, also inside an
open tag, and the next `}` closes it: the state is `some acc` inside a tag (`acc` holds
the characters read since its `{`, latest first) and `none` outside. -/
def scanInnermost : Option (List Char) → List Char → List String
  | _, [] => []
  | none, c :: cs => if c = '{' then scanInnermost (some []) cs else scanInnermost none cs
  | some acc, c :: cs =>
    if c = '{' then scanInnermost (some []) cs
    else if c = '}' then String.mk acc.reverse :: scanInnermost none cs
    else scanInnermost (some (c :: acc)) cs

/-- The substrings between a `{` and the next `}` after it with no `{` in between,
left to right, in order of occurrence. -/
def innermostTags (str : String) : List String :=
  scanInnermost none str.data

end string_utils

/-! ## package rest: data -/

namespace rest

/-- A Go `error` value: one made from a message, or one wrapping a cause
(`errors.Wrap`). -/
inductive GoError where
  | New (msg : String)
  | Wrap (cause : GoError) (msg : String)
  deriving DecidableEq, Repr

/-- A non-nil Go value held in an `interface{}` (a request body, a foreign cache
entry), identified by a label. What `json.Marshal` makes of it is decided by the
`World`. -/
structure GoValue where
  id : String
  deriving DecidableEq, Repr

/-- The type `http.Header`; `nil` and the empty map are both `[]`. -/
abbrev Header := List (String × List String)

/-- A `context.Context`, as far as the pipeline looks at it: its deadline. -/
structure Context where
  deadline : Option Int
  deriving DecidableEq, Repr

/-- The value `context.Background()`. -/
def Background : Context := { deadline := none }

/-- The call `context.WithTimeout(parent, timeout)` on a non-nil parent at the
instant `now`. -/
def WithTimeout (parent : Context) (now timeout : Int) : Context :=
  match parent.deadline with
  | some cur => if cur < now + timeout then parent else { deadline := some (now + timeout) }
  | none => { deadline := some (now + timeout) }

/-- The outbound `*http.Request`. -/
structure HttpRequest where
  Method : String
  URL : String
  Body : Option String
  Header : Header := []
  ctx : Context := Background
  deriving DecidableEq, Repr

/-- The body of an `*http.Response`: what `io.ReadAll` yields on it. -/
structure ReadCloser where
  data : String
  err : Option GoError := none
  deriving DecidableEq, Repr

/-- The inbound `*http.Response`. -/
structure HttpResponse where
  StatusCode : Int
  Header : Header := []
  Body : Option ReadCloser := none
  deriving DecidableEq, Repr

/-- What `r.client.Do(req)` hands back: the pair `(res, err)` and the time the call
took, in nanoseconds. -/
structure Transport where
  res : Option HttpResponse
  err : Option GoError
  elapsed : Nat

/-- The struct `Response`. -/
structure Response where
  StatusCode : Int := 0
  Headers : Header := []
  RawResponse : Option HttpResponse := none
  BodyBytes : Option String := none
  Duration : Int := 0
  Error : Option GoError := none
  deriving DecidableEq, Repr

/-- The struct `Request`. `client` and `t` are pointers: a reference into the
clients, respectively the tests, of the state, or `none` for `nil`. -/
structure Request where
  Method : String := ""
  URL : String := ""
  Body : Option GoValue := none
  Headers : Header := []
  TimeoutInMillis : Int := 0
  Retries : Int := 0
  AuthorizationToken : Option String := none
  cached : Bool := false
  cacheTTL : Int := 0
  client : Option Nat := none
  ctx : Option Context := none
  newRelicTrace : Bool := false
  pomeloTrace : Bool := false
  isMocked : Bool := false
  t : Option Nat := none
  deriving DecidableEq, Repr

/-- The struct `Config`. -/
structure Config where
  BaseURL : String := ""
  TimeoutInMillis : Int := 0
  DefaultHeaders : Header := []
  Retries : Int := 0
  deriving DecidableEq, Repr

/-- A value stored in a client's cache: a `*Response`, or a value of another type
that other code put there through the exported `Cache` field. -/
inductive CacheValue where
  | response (r : Response)
  | other (v : GoValue)
  deriving DecidableEq, Repr

/-- The struct `RestClient`. `Cache` is the interface `cache.Spec`, implemented by
`MemoryCache` only; `none` is the `nil` interface. The interceptor lists are never
read by the pipeline and are left out. -/
structure RestClient where
  Config : Config := {}
  Cache : Option (cache.MemoryCache CacheValue) := none

/-- The struct `MockResponse`. -/
structure MockResponse where
  StatusCode : Int := 0
  JSONBody : String := ""
  InternalError : Option GoError := none
  deriving DecidableEq, Repr

/-- The struct `MockCall`. -/
structure MockCall where
  URL : String
  ResponseBody : String
  RequestBody : Option GoValue
  deriving DecidableEq, Repr

/-- The struct `MockClient`. -/
structure MockClient where
  BaseURL : String := ""
  test : Option Nat := none
  deriving DecidableEq, Repr

/-- A `testing.T`, as far as the mock layer drives it: the failed flag set by `Fail`
and the lines written by `Logf`. -/
structure TestingT where
  failed : Bool := false
  logs : List String := []
  deriving DecidableEq, Repr

/-- The parts of the environment that are not code of the repository: the JSON
encoder, the request constructor of `net/http`, the header-key canonicalisation and
the transport behind `r.client.Do`. The transport answers from the client reference,
the requests sent so far, the instant of the call and the request. -/
structure World where
  Marshal : GoValue → Except GoError String
  NewRequest : String → String → Option String → Except GoError HttpRequest
  CanonicalKey : String → String
  Do : Nat → List HttpRequest → Int → HttpRequest → Transport

/-- The state a call of `Do` runs in: the three package-level tables of the mock
layer, the tests and the clients that requests point to, the requests that went out
through the transport, and the clock. The table `requestsDone` is `nil` (`none`) until
a mock-client constructor allocates it: reading a `nil` map finds nothing, writing to
it panics. For `mockCalls`, which `SetMockCall` allocates when it is `nil`, and for the
slice `requestStack`, `nil` and empty behave alike and are not told apart. -/
structure Sys where
  mockCalls : GoMap MockResponse := GoMap.empty
  requestStack : List MockCall := []
  requestsDone : Option (GoMap Nat) := none
  tests : Nat → TestingT := fun _ => {}
  clients : Nat → RestClient := fun _ => {}
  sent : List HttpRequest := []
  now : Int := 0

/-- The passing of `d` nanoseconds with no call in between. -/
def Sys.advance (s : Sys) (d : Int) : Sys :=
  { s with now := s.now + d }

/-- What a call of `Do` comes to: it returns a `*Response` (`none` is the `nil`
pointer), or it panics. -/
inductive Outcome where
  | returned (res : Option Response)
  | panicked (why : String)
  deriving DecidableEq, Repr

/-- The message of a nil pointer dereference. -/
def nilDereference : String := "invalid memory address or nil pointer dereference"

/-! ## package rest: client.go and request.go -/

/-- The constructor `NewDefaultRestClient`. -/
def NewDefaultRestClient : RestClient :=
  { Cache := some (cache.NewMemoryCache "restclient" 30 3600 false) }

/-- The constructor `NewCustomRestClient`. -/
def NewCustomRestClient (cfg : Config) : RestClient :=
  { Config := cfg }

/-- The method `RestClient.Get` of the client at reference `c`. -/
def RestClient.Get (c : Nat) (url : String) : Request :=
  { Method := "GET", URL := url, client := some c }

/-- The method `RestClient.Put` of the client at reference `c`. -/
def RestClient.Put (c : Nat) (url : String) (body : Option GoValue) : Request :=
  { Method := "PUT", URL := url, Body := body, client := some c }

/-- The method `RestClient.Post` of the client at reference `c`. -/
def RestClient.Post (c : Nat) (url : String) (body : Option GoValue) : Request :=
  { Method := "POST", URL := url, Body := body, client := some c }

/-- The method `RestClient.Request` of the client at reference `c`. -/
def RestClient.Request (c : Nat) (method url : String) (body : Option GoValue) : Request :=
  { Method := method, URL := url, Body := body, client := some c }

/-- The method `Request.WithContext`. -/
def Request.WithContext (r : Request) (ctx : Option Context) : Request :=
  { r with ctx := ctx }

/-- The method `Request.WithTimeout`. -/
def Request.WithTimeout (r : Request) (timeoutInMillis : Int) : Request :=
  { r with TimeoutInMillis := timeoutInMillis }

/-- The method `Request.WithRetries`. -/
def Request.WithRetries (r : Request) (retries : Int) : Request :=
  { r with Retries := retries }

/-- The method `Request.WithCache`. -/
def Request.WithCache (r : Request) (ttl : Int) : Request :=
  { r with cached := true, cacheTTL := ttl }

/-- The method `Request.WithAuthorizationToken`. -/
def Request.WithAuthorizationToken (r : Request) (token : String) : Request :=
  { r with AuthorizationToken := some token }

/-- The replacement of the client at reference `c`. -/
def Sys.setClient (s : Sys) (c : Nat) (cl : RestClient) : Sys :=
  { s with clients := fun c' => if c' = c then cl else s.clients c' }

/-- The pruning step of the cache engine's worker on the cache of the client at
reference `c`; it runs on its own after a write to the cache. -/
def Sys.prune (s : Sys) (c : Nat) : Sys :=
  s.setClient c { s.clients c with Cache := (s.clients c).Cache.map cache.MemoryCache.prune }

/-- The method `Request.WithCustomBaseURL`: it writes through the client pointer. -/
def Request.WithCustomBaseURL (s : Sys) (r : Request) (baseURL : String) : Request × Sys :=
  match r.client with
  | some c =>
    (r, s.setClient c { s.clients c with Config := { (s.clients c).Config with BaseURL := baseURL } })
  | none => (r, s)

/-! ## package rest: mock.go -/

/-- What the constructors `NewDefaultMockClient` and `NewMockClient` do to the state:
the three package-level tables start afresh. -/
def Sys.resetMock (s : Sys) : Sys :=
  { s with mockCalls := GoMap.empty, requestsDone := some GoMap.empty, requestStack := [] }

/-- The constructor `NewDefaultMockClient`. -/
def NewDefaultMockClient (s : Sys) (t : Option Nat) : MockClient × Sys :=
  ({ test := t }, s.resetMock)

/-- The constructor `NewMockClient`. -/
def NewMockClient (s : Sys) (t : Option Nat) (baseURL : String) : MockClient × Sys :=
  ({ test := t, BaseURL := baseURL }, s.resetMock)

/-- The method `MockClient.Get`. -/
def MockClient.Get (c : MockClient) (url : String) : Request :=
  { Method := "GET", URL := url, isMocked := true, t := c.test }

/-- The method `MockClient.Post`. -/
def MockClient.Post (c : MockClient) (url : String) (body : Option GoValue) : Request :=
  { Body := body, Method := "POST", URL := url, isMocked := true, t := c.test }

/-- The method `MockClient.Put`. -/
def MockClient.Put (c : MockClient) (url : String) (body : Option GoValue) : Request :=
  { Method := "PUT", Body := body, URL := url, isMocked := true, t := c.test }

/-- The method `MockClient.Delete`. -/
def MockClient.Delete (c : MockClient) (url : String) : Request :=
  { Method := "DELETE", URL := url, isMocked := true, t := c.test }

/-- The method `MockClient.Request`. -/
def MockClient.Request (c : MockClient) (method url : String) (body : Option GoValue) :
    Request :=
  { Method := method, URL := url, Body := body, isMocked := true, t := c.test }

/-- The method `MockClient.SetMockCall`. -/
def SetMockCall (s : Sys) (method url : String) (response : MockResponse) : Sys :=
  { s with mockCalls := s.mockCalls.set (method ++ url) response }

/-- The method `MockClient.CountRequestsDone`. -/
def CountRequestsDone (s : Sys) (method url : String) : Nat :=
  match s.requestsDone with
  | some done =>
    match done (method ++ url) with
    | some res => res
    | none => 0
  | none => 0

/-- The method `MockClient.GetRequestStack`. -/
def GetRequestStack (s : Sys) : List MockCall :=
  s.requestStack

/-- The method `MockClient.ClearMockCalls`. -/
def ClearMockCalls (s : Sys) : Sys :=
  { s with mockCalls := GoMap.empty }

/-- The calls `r.t.Logf(...)` and `r.t.Fail()` on the test at reference `tid`. -/
def Sys.failTest (s : Sys) (tid : Nat) (line : String) : Sys :=
  { s with
    tests := fun i =>
      if i = tid then { failed := true, logs := (s.tests tid).logs ++ [line] } else s.tests i }

/-- The function `handleMockRequest`. Reading a Go map at a missing key gives the zero
value, here the zero `MockResponse` and the count `0`; the write to `requestsDone`
panics when that table was never allocated. -/
def handleMockRequest (s : Sys) (r : Request) (url method : String) : Outcome × Sys :=
  if r.isMocked then
    let found := s.mockCalls (method ++ url)
    let mock : MockResponse := found.getD {}
    let marked : Option Sys :=
      if found.isSome then some s
      else r.t.map (fun tid => s.failTest tid ("No mock found for " ++ (method ++ url)))
    match marked with
    | none => (.panicked nilDereference, s)
    | some s1 =>
      if mock.InternalError ≠ none then
        (.returned (some
          { StatusCode := 500
            Error := ((s1.mockCalls (method ++ url)).getD {}).InternalError }), s1)
      else
        match s1.requestsDone with
        | none => (.panicked "assignment to entry in nil map", s1)
        | some done =>
          let s2 : Sys :=
            { s1 with
              requestsDone := some (done.set (method ++ url) ((done (method ++ url)).getD 0 + 1))
              requestStack :=
                s1.requestStack ++
                  [{ URL := url, ResponseBody := mock.JSONBody, RequestBody := r.Body }] }
          (.returned (some
            { StatusCode := ((s2.mockCalls (method ++ url)).getD {}).StatusCode
              Error := none
              RawResponse := none
              BodyBytes := some mock.JSONBody }), s2)
  else
    (.returned none, s)

/-! ## package rest: do.go -/

/-- The outcome of lines 27 to 33 of `Do`: the cache answers with a stored `*Response`,
or the call goes on, or it panics. -/
inductive CacheRead where
  | hit (res : Response)
  | miss
  | panic (why : String)
  deriving DecidableEq, Repr

/-- Lines 27 to 33 of `Do`: the cache lookup under the key `r.Method + url`, the `nil`
test on the value and the type assertion `cachedResponse.(*Response)`. -/
def cacheRead (s : Sys) (r : Request) (c : Nat) (url : String) : CacheRead :=
  if r.cached then
    match (s.clients c).Cache with
    | none => .panic nilDereference
    | some mc =>
      match (mc.Get s.now s.now (r.Method ++ url)).2 with
      | some (.response res) => .hit res
      | some (.other _) => .panic "interface conversion: interface {} is not *rest.Response"
      | none => .miss
  else
    .miss

/-- The value of a product of `int64` numbers: the mathematical value, wrapped into
the range from `-2^63` to `2^63 - 1`. -/
def wrapInt64 (x : Int) : Int :=
  (x + 9223372036854775808) % 18446744073709551616 - 9223372036854775808

/-- Lines 35 to 42 of `Do`: the context of the call; `context.WithTimeout` panics on a
`nil` parent. The duration `time.Duration(r.TimeoutInMillis) * time.Millisecond` is a
product of `int64` numbers. -/
def callContext (s : Sys) (r : Request) : Except String (Option Context) :=
  if r.TimeoutInMillis > 0 then
    match r.ctx with
    | some parent =>
      .ok (some (WithTimeout parent s.now (wrapInt64 (r.TimeoutInMillis * 1000000))))
    | none => .error "cannot create context from nil parent"
  else
    .ok r.ctx

/-- The call `req.Header.Set(k, v)`. -/
def headerSet (w : World) (h : Header) (k v : String) : Header :=
  h.filter (fun kv => !decide (kv.1 = w.CanonicalKey k)) ++ [(w.CanonicalKey k, [v])]

/-- Lines 69 to 78 of `Do`: the headers of the request, each joined with commas, then
the bearer token. -/
def applyHeaders (w : World) (r : Request) (req : HttpRequest) : HttpRequest :=
  let req1 : HttpRequest :=
    r.Headers.foldl
      (fun q kv => { q with Header := headerSet w q.Header kv.1 (String.intercalate "," kv.2) })
      req
  match r.AuthorizationToken with
  | some token => { req1 with Header := headerSet w req1.Header "Authorization" ("Bearer " ++ token) }
  | none => req1

/-- Lines 80 to 130 of `Do`: the transport call, the shaping of its error, the reading
of the body, the write-back to the cache. -/
def send (w : World) (s : Sys) (r : Request) (c : Nat) (url : String) (req : HttpRequest) :
    Outcome × Sys :=
  let tr := w.Do c s.sent s.now req
  let s1 : Sys := { s with sent := s.sent ++ [req], now := s.now + (tr.elapsed : Int) }
  let elapsed : Int := ((tr.elapsed / 1000000 : Nat) : Int)
  match tr.err with
  | some err =>
    let statusCode : Int :=
      match tr.res with
      | some res => res.StatusCode
      | none => 500
    (.returned (some
      { StatusCode := statusCode
        Duration := elapsed
        Error := some (.Wrap err ("error on url: " ++ url)) }), s1)
  | none =>
    match tr.res with
    | none => (.panicked nilDereference, s1)
    | some res =>
      let read : Except GoError String :=
        match res.Body with
        | some body =>
          match body.err with
          | some err => .error err
          | none => .ok body.data
        | none => .ok ""
      match read with
      | .error err =>
        (.returned (some
          { StatusCode := 800
            Error := some (.Wrap err "error reading response body") }), s1)
      | .ok bodyBytes =>
        let response : Response :=
          { StatusCode := res.StatusCode
            Headers := res.Header
            RawResponse := some res
            BodyBytes := some bodyBytes
            Error := none
            Duration := elapsed }
        if r.cached then
          match (s1.clients c).Cache with
          | none => (.panicked nilDereference, s1)
          | some mc =>
            (.returned (some response),
              s1.setClient c
                { s1.clients c with
                  Cache := some
                    (mc.SaveWithTTL s1.now (r.Method ++ url) (some (.response response))
                      r.cacheTTL) })
        else
          (.returned (some response), s1)

/-- Lines 44 to 67 of `Do`, then the rest: the body is serialised, the request is
built, the context is attached when the request has one, and only then the error of
the constructor is looked at. -/
def build (w : World) (s : Sys) (r : Request) (c : Nat) (url : String)
    (ctx : Option Context) : Outcome × Sys :=
  let made : Except Response (Except GoError HttpRequest) :=
    match r.Body with
    | some body =>
      match w.Marshal body with
      | .error err => .error { StatusCode := 800, Error := some err }
      | .ok b => .ok (w.NewRequest r.Method url (some b))
    | none => .ok (w.NewRequest r.Method url none)
  match made with
  | .error res => (.returned (some res), s)
  | .ok (.error _) =>
    match r.ctx with
    | some _ =>
      match ctx with
      | some _ => (.panicked nilDereference, s)
      | none => (.panicked "nil context", s)
    | none => (.returned none, s)
  | .ok (.ok req) =>
    match r.ctx with
    | some _ =>
      match ctx with
      | some cx => send w s r c url (applyHeaders w r { req with ctx := cx })
      | none => (.panicked "nil context", s)
    | none => send w s r c url (applyHeaders w r req)

/-- The method `Request.Do`. -/
def Request.Do (r : Request) (w : World) (s : Sys) : Outcome × Sys :=
  if r.isMocked then
    handleMockRequest s r r.URL r.Method
  else
    match r.client with
    | none => (.panicked nilDereference, s)
    | some c =>
      let url := (s.clients c).Config.BaseURL ++ r.URL
      match cacheRead s r c url with
      | .hit res => (.returned (some res), s)
      | .panic why => (.panicked why, s)
      | .miss =>
        match callContext s r with
        | .error why => (.panicked why, s)
        | .ok ctx => build w s r c url ctx

/-- The calls `r.Do()` for the requests of `rs`, one after the other: the state after
the last of them. -/
def doAll (w : World) (s : Sys) (rs : List Request) : Sys :=
  rs.foldl (fun st r => (r.Do w st).2) s

/-! ## a concrete world -/

/-- Whether a character may stand in an HTTP method (a token character). -/
def isTokenChar (c : Char) : Bool :=
  c.isAlphanum || "!#$%&*+-.^_|~".data.contains c || c = Char.ofNat 39 || c = Char.ofNat 96

/-- A world for the concrete evaluations. Its JSON encoder rejects the values labelled
`chan` (a channel cannot be encoded) and quotes the others; its request constructor
rejects, as `net/http` does, a method that is not a token; its transport answers every
request with `200` and the body `ok`, in no time. -/
def sampleWorld : World where
  Marshal v :=
    if v.id = "chan" then .error (.New "json: unsupported type: chan int")
    else .ok ("\"" ++ v.id ++ "\"")
  NewRequest method url body :=
    if method.data.all isTokenChar then
      .ok { Method := if method = "" then "GET" else method, URL := url, Body := body }
    else .error (.New ("net/http: invalid method " ++ method))
  CanonicalKey k := k
  Do _ _ _ _ :=
    { res := some { StatusCode := 200, Body := some { data := "ok" } }, err := none, elapsed := 0 }

/-- A state with one client, made by `NewDefaultRestClient`, at every reference. -/
def sampleSys : Sys :=
  { clients := fun _ => NewDefaultRestClient }

/-- The default client after thirty values were saved in its cache, under the keys
`A`, `B` and so on, at instant 0 with a TTL of one hour: the cache is at its bound. -/
def fullClient : RestClient :=
  { Cache := some
      ((List.range 30).foldl
        (fun mc i =>
          mc.SaveWithTTL 0 (String.mk [Char.ofNat (65 + i)]) (some (.other { id := "v" }))
            3600000000000)
        (cache.NewMemoryCache "restclient" 30 3600 false)) }

/-- A state with the client `fullClient` at every reference. -/
def fullSys : Sys :=
  { clients := fun _ => fullClient }

end rest

/-! ## package string_utils: ReplaceTags -/

namespace string_utils

/-- The scan behind `strings.ReplaceAll(s, old, new)` for a non-empty `old`, on
characters: `skip` characters of a match are still to be passed over; outside a match,
the leftmost occurrence of `old` is replaced by `new` and the scan resumes after it. -/
def replaceFrom (old new : List Char) : Nat → List Char → List Char
  | _, [] => []
  | skip + 1, _ :: cs => replaceFrom old new skip cs
  | 0, c :: cs =>
    if old.isPrefixOf (c :: cs) then new ++ replaceFrom old new (old.length - 1) cs
    else c :: replaceFrom old new 0 cs

/-- The call `strings.ReplaceAll(s, old, new)` for a non-empty `old`. -/
def ReplaceAll (s old new : String) : String :=
  String.mk (replaceFrom old.data new.data 0 s.data)

/-- The loop of `ReplaceTags` over the tags that are left, `newStr` being the text so
far. `Get input tag` stands for `gjson.GetBytes(input, tag)`, a third-party call:
`none` when the result does not exist, else the result's `String()`. -/
def replaceLoop (Get : String → String → Option String) (input : String) :
    List String → String → String × Option rest.GoError
  | [], newStr => (newStr, none)
  | tag :: tags, newStr =>
    match Get input tag with
    | some jsonStr =>
      replaceLoop Get input tags (ReplaceAll newStr ("\x7b" ++ tag ++ "\x7d") jsonStr)
    | none => ("", some (.New "tag not found"))

/-- The function `ReplaceTags`; its context argument is not used by the code and is
left out. -/
def ReplaceTags (Get : String → String → Option String) (str input : String) :
    String × Option rest.GoError :=
  replaceLoop Get input (GetTagsFromString str) str

/-- A piece of a template: plain text, or a placeholder `{t}` with path `t`. -/
inductive Chunk where
  | text (s : List Char)
  | tag (t : List Char)
  deriving DecidableEq, Repr

/-- The characters of a piece of a template. -/
def Chunk.render : Chunk → List Char
  | .text s => s
  | .tag t => '{' :: (t ++ ['}'])

/-- The template made of the pieces `cs`, one after the other. -/
def renderAll (cs : List Chunk) : List Char :=
  (cs.map Chunk.render).flatten

/-- A piece of a template in which every `{` opens a placeholder: a text has no `{`, a
path has neither `{` nor `}`. -/
def Chunk.ok : Chunk → Bool
  | .text s => !Contains s '{'
  | .tag t => !Contains t '{' && !Contains t '}'

/-- Simultaneous substitution: every placeholder of the template gives way to the
value at its path, the text stays, and an inserted value is not looked at again. -/
def substitute (val : String → Option String) (cs : List Chunk) : List Char :=
  (cs.map (fun ch =>
    match ch with
    | .text s => s
    | .tag t => ((val (String.mk t)).getD "").data)).flatten

/-- One step of the substitution, on a piece: the placeholder with path `t` gives way
to the text `v`; every other piece stays. -/
def Chunk.fill (t v : List Char) (ch : Chunk) : Chunk :=
  if ch = .tag t then .text v else ch

/-- The path of a piece that is a placeholder. -/
def Chunk.path? : Chunk → Option String
  | .tag t => some (String.mk t)
  | .text _ => none

/-- The answers of the JSON path lookup on two payloads, for the concrete evaluations:
on `{"a":"{b}","b":"x"}` the path `a` has the value `{b}` and `b` the value `x`; on
`{"b":"v","xvy":"Z"}` the path `b` has the value `v` and `xvy` the value `Z`. Every
other path is absent. -/
def sampleGet (input path : String) : Option String :=
  if input = "\x7b\"a\":\"\x7bb\x7d\",\"b\":\"x\"\x7d" then
    if path = "a" then some "\x7bb\x7d"
    else if path = "b" then some "x"
    else none
  else if input = "\x7b\"b\":\"v\",\"xvy\":\"Z\"\x7d" then
    if path = "b" then some "v"
    else if path = "xvy" then some "Z"
    else none
  else none

end string_utils

/-! ## package rest: MapTo -/

namespace rest

/-- The method `Response.MapTo`. `Unmarshal` stands for `json.Unmarshal`, which is not
code of the repository: from the bytes and the target it yields the error, `none` for
success. -/
def Response.MapTo (Unmarshal : String → Option GoValue → Option GoError) (r : Response)
    (bindTo : Option GoValue) : Option GoError :=
  match r.BodyBytes with
  | none => some (.New "response body is nil")
  | some bodyBytes =>
    match Unmarshal bodyBytes bindTo with
    | some err => some err
    | none => none

/-- A decoder for the concrete evaluations: like `encoding/json`, it fails on an empty
input with `unexpected end of JSON input`; it accepts every other input. -/
def sampleUnmarshal (data : String) (_bindTo : Option GoValue) : Option GoError :=
  if data = "" then some (.New "unexpected end of JSON input") else none

end rest

/-! ## properties of package cache -/

/-- Reading a map at the key just assigned. -/
theorem GoMap_set_self {V : Type} (m : GoMap V) (k : String) (v : V) :
    (m.set k v) k = some v := by
  simp [GoMap.set]

/-- Reading a map at the key just removed. -/
theorem GoMap_remove_self {V : Type} (m : GoMap V) (k : String) :
    (m.remove k) k = none := by
  simp [GoMap.remove]

namespace cache

/-- What `Get` answers when the engine holds an entry for the key. -/
theorem Get_of_entry {α : Type} (impl : MemoryCache α) (now now2 : Int) (key : String)
    (it : Item α) (h : impl.cCache.Get key = some it) :
    impl.Get now now2 key =
      if it.expires < now then
        (if impl.returnExpired then (decide (it.expires < now2), it.value) else (false, none))
      else (false, it.value) := by
  unfold MemoryCache.Get
  simp only [h, Item.Expired, Item.Value]
  by_cases hx : it.expires < now <;> simp [hx]

/-- C7: a key saved (with `SaveWithTTL`, or with `Save` and the default TTL) at the
instant `t` with a TTL that has elapsed at the clock readings `now ≤ now2` of `Get`:
as long as the engine still holds the entry as saved (it was neither deleted nor
overwritten), `Get` answers `(false, nil)` on a cache built with
`returnExpired = false` and `(true, the saved value)` on one built with
`returnExpired = true`. -/
theorem Get_after_ttl_elapsed {α : Type} (impl later : MemoryCache α) (t now now2 : Int)
    (key : String) (v : Option α) (ttl : Int)
    (hkept : later.cCache.Get key = (impl.SaveWithTTL t key v ttl).cCache.Get key ∨
      (impl.defaultTTL = ttl ∧ later.cCache.Get key = (impl.Save t key v).cCache.Get key))
    (helapsed : t + ttl < now) (hclock : now ≤ now2) :
    (later.returnExpired = false → later.Get now now2 key = (false, none)) ∧
    (later.returnExpired = true → later.Get now now2 key = (true, v)) := by
  have hentry : later.cCache.Get key = some { value := v, expires := t + ttl } := by
    rcases hkept with h | ⟨hd, h⟩
    · rw [h]; simp [MemoryCache.SaveWithTTL, CCache.Set, CCache.Get, GoMap_set_self]
    · rw [h, ← hd]; simp [MemoryCache.Save, CCache.Set, CCache.Get, GoMap_set_self]
  have h2 : t + ttl < now2 := lt_of_lt_of_le helapsed hclock
  rw [Get_of_entry later now now2 key _ hentry]
  constructor
  · intro hr; simp [hr, helapsed]
  · intro hr; simp [hr, helapsed, h2]

/-- Witness of C7, the scenario of the repository's tests: a value saved at instant 0
with a TTL of 500 ms and read one second later. -/
theorem Get_after_ttl_elapsed_witness :
    ((NewMemoryCache "test" 10 10000000000 true : MemoryCache String).SaveWithTTL 0 "key"
        (some "value") 500000000).Get 1000000000 1000000000 "key" = (true, some "value") ∧
    ((NewMemoryCache "test" 10 10000000000 false : MemoryCache String).SaveWithTTL 0 "key"
        (some "value") 500000000).Get 1000000000 1000000000 "key" = (false, none) :=
  ⟨(Get_after_ttl_elapsed (NewMemoryCache "test" 10 10000000000 true)
      ((NewMemoryCache "test" 10 10000000000 true : MemoryCache String).SaveWithTTL 0 "key"
        (some "value") 500000000) 0 1000000000 1000000000 "key" (some "value") 500000000
      (Or.inl rfl) (by decide) (by decide)).2 rfl,
   (Get_after_ttl_elapsed (NewMemoryCache "test" 10 10000000000 false)
      ((NewMemoryCache "test" 10 10000000000 false : MemoryCache String).SaveWithTTL 0 "key"
        (some "value") 500000000) 0 1000000000 1000000000 "key" (some "value") 500000000
      (Or.inl rfl) (by decide) (by decide)).1 rfl⟩

/-- C9: on every cache and for every key, present or not, fresh or expired,
`Delete(key)` followed by `Get(key)` answers `(false, nil)`; and `Delete` of a key
the engine does not hold yields a cache (it does not fail) that holds exactly what it
held before. -/
theorem Get_after_Delete {α : Type} (impl : MemoryCache α) (now now2 : Int) (key : String) :
    (impl.Delete key).Get now now2 key = (false, none) ∧
    (impl.cCache.Get key = none → impl.Delete key = impl) := by
  constructor
  · unfold MemoryCache.Delete CCache.Delete
    cases h : impl.cCache.items key with
    | none => simp [MemoryCache.Get, CCache.Get, h]
    | some it => simp [MemoryCache.Get, CCache.Get, GoMap_remove_self]
  · intro h
    have h' : impl.cCache.items key = none := h
    simp [MemoryCache.Delete, CCache.Delete, h']

/-- Witness of C9: the scenario of the repository's test, then a second `Delete` of the
key that is gone. -/
theorem Get_after_Delete_witness :
    (((NewMemoryCache "test" 10 1000000000000 false : MemoryCache String).Save 0 "key"
        (some "value")).Delete "key").Get 0 0 "key" = (false, none) ∧
    ((((NewMemoryCache "test" 10 1000000000000 false : MemoryCache String).Save 0 "key"
        (some "value")).Delete "key").Delete "key").Get 0 0 "key" = (false, none) :=
  ⟨(Get_after_Delete _ 0 0 "key").1, (Get_after_Delete _ 0 0 "key").1⟩

end cache

/-! ## properties of package string_utils -/

namespace string_utils

/-- The loop of `GetTagsFromString` appends to the tags found so far what each piece
adds. -/
theorem foldl_pieceTag (pieces : List (List Char)) :
    ∀ acc : List String,
      pieces.foldl
        (fun tags tag =>
          if Contains tag '}' then tags ++ [String.mk (tag.take (Index tag '}'))] else tags)
        acc = acc ++ (pieces.map pieceTag).flatten := by
  induction pieces with
  | nil => intro acc; simp
  | cons p ps ih =>
    intro acc
    simp only [List.foldl_cons, List.map_cons, List.flatten_cons]
    rw [ih]
    by_cases h : Contains p '}' = true <;> simp [pieceTag, h]

/-- The tags are what the pieces of the split add, piece by piece. -/
theorem GetTagsFromString_eq_join (str : String) :
    GetTagsFromString str = ((Split str.data '{').map pieceTag).flatten := by
  unfold GetTagsFromString
  rw [foldl_pieceTag]
  simp

/-- The text of a piece up to its first `}`. -/
theorem take_Index_closed (p : List Char) :
    ∀ a : List Char, Contains a '}' = false →
      (a ++ '}' :: p).take (Index (a ++ '}' :: p) '}') = a := by
  intro a
  induction a with
  | nil => intro _; simp [Index]
  | cons x xs ih =>
    intro ha
    have hx : x ≠ '}' := by
      intro hx; simp [Contains, hx] at ha
    have hxs : Contains xs '}' = false := by
      simp [Contains] at ha ⊢; exact ha.2
    have := ih hxs
    simp only [Index] at this ⊢
    simp [List.takeWhile, hx, this]

/-- A piece whose first `}` comes after the text `a` adds the tag `a`. -/
theorem pieceTag_closed (a p : List Char) (ha : Contains a '}' = false) :
    pieceTag (a ++ '}' :: p) = [String.mk a] := by
  have hc : Contains (a ++ '}' :: p) '}' = true := by simp [Contains]
  simp [pieceTag, hc, take_Index_closed p a ha]

/-- A piece without `}` adds no tag. -/
theorem pieceTag_open (a : List Char) (ha : Contains a '}' = false) : pieceTag a = [] := by
  simp [pieceTag, ha]

/-- The scan and the pieces of the split: inside a tag the scan yields what the first
piece, after the characters already read, and the later pieces add; outside a tag
it yields what the later pieces add. -/
theorem scanInnermost_eq_pieces (cs : List Char) :
    ∃ p ps, Split cs '{' = p :: ps ∧
      (∀ racc : List Char, Contains racc '}' = false →
        scanInnermost (some racc) cs = pieceTag (racc.reverse ++ p) ++ (ps.map pieceTag).flatten) ∧
      scanInnermost none cs = (ps.map pieceTag).flatten := by
  induction cs with
  | nil =>
    refine ⟨[], [], rfl, ?_, by simp [scanInnermost]⟩
    intro racc hr
    have : Contains racc.reverse '}' = false := by simpa [Contains] using hr
    simp [scanInnermost, pieceTag_open _ this]
  | cons c cs ih =>
    obtain ⟨p, ps, hsplit, hsome, hnone⟩ := ih
    by_cases hc : c = '{'
    · subst hc
      refine ⟨[], p :: ps, by simp [Split, hsplit], ?_, ?_⟩
      · intro racc hr
        have h0 := hsome [] (by simp [Contains])
        have : Contains racc.reverse '}' = false := by simpa [Contains] using hr
        simp [scanInnermost, h0, pieceTag_open _ this]
      · have h0 := hsome [] (by simp [Contains])
        simp [scanInnermost, h0]
    · refine ⟨c :: p, ps, by simp [Split, hc, hsplit], ?_, ?_⟩
      · intro racc hr
        by_cases hc2 : c = '}'
        · subst hc2
          have hr' : Contains racc.reverse '}' = false := by simpa [Contains] using hr
          simp [scanInnermost, hnone, pieceTag_closed _ p hr']
        · have := hsome (c :: racc) (by simp [Contains] at hr ⊢; exact ⟨hc2, hr⟩)
          simp [scanInnermost, hc, hc2, this]
      · simp [scanInnermost, hc, hnone]

/-- The function `GetTagsFromString` on any string is the scan started inside a tag,
as if a `{` stood before the string. -/
theorem GetTagsFromString_eq_scan_open (str : String) :
    GetTagsFromString str = scanInnermost (some []) str.data := by
  obtain ⟨p, ps, hsplit, hsome, _⟩ := scanInnermost_eq_pieces str.data
  rw [GetTagsFromString_eq_join, hsplit, hsome [] (by simp [Contains])]
  simp

/-- With no `}` before the first `{`, the scan started inside a tag and the scan
started outside yield the same tags. -/
theorem scanInnermost_lead (cs : List Char) :
    ∀ racc : List Char,
      Contains (cs.takeWhile (fun c => !decide (c = '{'))) '}' = false →
      scanInnermost (some racc) cs = scanInnermost none cs := by
  induction cs with
  | nil => intro racc _; simp [scanInnermost]
  | cons c cs ih =>
    intro racc h
    by_cases hc : c = '{'
    · simp [scanInnermost, hc]
    · have hc2 : c ≠ '}' := by
        intro hc2; simp [List.takeWhile, hc, Contains, hc2] at h
      have ht : Contains (cs.takeWhile (fun c => !decide (c = '{'))) '}' = false := by
        simp [List.takeWhile, hc, Contains] at h ⊢
        exact h.2
      simp [scanInnermost, hc, hc2, ih (c :: racc) ht, ih [] ht]

/-- The scan of a text without `}` yields no tag. -/
theorem scanInnermost_no_close (cs : List Char) (h : Contains cs '}' = false) :
    ∀ st : Option (List Char), scanInnermost st cs = [] := by
  induction cs with
  | nil => intro st; cases st <;> simp [scanInnermost]
  | cons c cs ih =>
    have hc2 : c ≠ '}' := by
      intro hc2; simp [Contains, hc2] at h
    have ht : Contains cs '}' = false := by
      simp [Contains] at h ⊢; exact h.2
    intro st
    cases st with
    | none => by_cases hc : c = '{' <;> simp [scanInnermost, hc, ih ht]
    | some acc => by_cases hc : c = '{' <;> simp [scanInnermost, hc, hc2, ih ht]

/-- The scan of a text without a `{` followed later by a `}` yields no tag. -/
theorem scanInnermost_no_pair (cs : List Char) :
    (∀ l1 l2 : List Char, cs = l1 ++ '{' :: l2 → Contains l2 '}' = false) →
      scanInnermost none cs = [] := by
  induction cs with
  | nil => intro _; simp [scanInnermost]
  | cons c cs ih =>
    intro h
    by_cases hc : c = '{'
    · have := h [] cs (by simp [hc])
      simp [scanInnermost, hc, scanInnermost_no_close cs this]
    · have := ih (fun l1 l2 hl => h (c :: l1) l2 (by simp [hl]))
      simp [scanInnermost, hc, this]

/-- C10, amended: for every string with no `}` before its first `{`,
`GetTagsFromString` returns exactly the substrings that lie between a `{` and the next
`}` after it with no other `{` in between (a `{` inside an open tag starts the tag
afresh), found by scanning left to right without overlap, in order of occurrence; and
such a string that contains no `{` followed later by `}` yields no tags. -/
theorem GetTagsFromString_eq_innermostTags (str : String)
    (hlead : Contains (str.data.takeWhile (fun c => !decide (c = '{'))) '}' = false) :
    GetTagsFromString str = innermostTags str ∧
    ((∀ l1 l2 : List Char, str.data = l1 ++ '{' :: l2 → Contains l2 '}' = false) →
      GetTagsFromString str = []) := by
  have h : GetTagsFromString str = innermostTags str := by
    rw [GetTagsFromString_eq_scan_open, innermostTags, scanInnermost_lead str.data [] hlead]
  exact ⟨h, fun hno => by rw [h, innermostTags, scanInnermost_no_pair str.data hno]⟩

/-- Witness of C10, amended: a template with two placeholders. -/
theorem GetTagsFromString_eq_innermostTags_witness :
    Contains ("x \x7bu.n\x7d y \x7bv\x7d z".data.takeWhile (fun c => !decide (c = '{'))) '}' = false ∧
    GetTagsFromString "x \x7bu.n\x7d y \x7bv\x7d z" = innermostTags "x \x7bu.n\x7d y \x7bv\x7d z" ∧
    innermostTags "x \x7bu.n\x7d y \x7bv\x7d z" = ["u.n", "v"] :=
  ⟨by decide, (GetTagsFromString_eq_innermostTags "x \x7bu.n\x7d y \x7bv\x7d z" (by decide)).1,
    by decide⟩

/-- C10, as stated, fails: on `{a{b}` the function returns `b`, where the text between
the first `{` and the next `}` after it is `a{b`; and on `a}`, a string without any `{`,
it returns the tag `a`. -/
theorem GetTagsFromString_differs_from_wrappedTags :
    GetTagsFromString "\x7ba\x7bb\x7d" = ["b"] ∧ wrappedTags "\x7ba\x7bb\x7d" = ["a\x7bb"] ∧
    GetTagsFromString "a\x7d" = ["a"] ∧ wrappedTags "a\x7d" = [] := by
  decide

end string_utils

/-! ## properties of the mock layer -/

namespace rest

/-- What `handleMockRequest` does for a registered mock without injected error when
the table of counters is allocated. -/
theorem handleMockRequest_found (s : Sys) (r : Request) (url method : String)
    (m : MockResponse) (done : GoMap Nat) (hmock : r.isMocked = true)
    (hreg : s.mockCalls (method ++ url) = some m) (hm : m.InternalError = none)
    (hdone : s.requestsDone = some done) :
    handleMockRequest s r url method =
      (.returned (some { StatusCode := m.StatusCode, BodyBytes := some m.JSONBody }),
        { s with
          requestsDone := some (done.set (method ++ url) ((done (method ++ url)).getD 0 + 1))
          requestStack :=
            s.requestStack ++
              [{ URL := url, ResponseBody := m.JSONBody, RequestBody := r.Body }] }) := by
  simp [handleMockRequest, hmock, hreg, hm, hdone]

/-- The counter read through `CountRequestsDone` is the entry of the allocated table,
`0` when absent. -/
theorem CountRequestsDone_eq (s : Sys) (method url : String) (done : GoMap Nat)
    (hdone : s.requestsDone = some done) :
    CountRequestsDone s method url = (done (method ++ url)).getD 0 := by
  unfold CountRequestsDone
  rw [hdone]
  simp only []
  cases h : done (method ++ url) <;> simp

/-- A run of mocked calls under one registered key, from any state that holds the
registration and whose table of counters is allocated: the counter grows by the number
of calls and the log by their records, in call order. -/
theorem doAll_registered (w : World) (method url : String) (m : MockResponse)
    (hm : m.InternalError = none) (rs : List Request) :
    ∀ (s : Sys) (done : GoMap Nat), s.mockCalls (method ++ url) = some m →
      s.requestsDone = some done →
      (∀ r ∈ rs, r.isMocked = true ∧ r.Method = method ∧ r.URL = url) →
      CountRequestsDone (doAll w s rs) method url = CountRequestsDone s method url + rs.length ∧
      GetRequestStack (doAll w s rs) =
        GetRequestStack s ++
          rs.map (fun r => { URL := url, ResponseBody := m.JSONBody, RequestBody := r.Body }) := by
  induction rs with
  | nil => intro s _ _ _ _; simp [doAll]
  | cons r rs ih =>
    intro s done hreg hdone hall
    obtain ⟨hmock, hM, hU⟩ := hall r (List.mem_cons_self _ _)
    have hstep : (r.Do w s).2 =
        { s with
          requestsDone := some (done.set (method ++ url) ((done (method ++ url)).getD 0 + 1))
          requestStack :=
            s.requestStack ++
              [{ URL := url, ResponseBody := m.JSONBody, RequestBody := r.Body }] } := by
      simp only [Request.Do, hmock, hM, hU, if_true]
      rw [handleMockRequest_found s r url method m done hmock hreg hm hdone]
    have hrest := ih (r.Do w s).2 _ (by rw [hstep]; exact hreg) (by rw [hstep])
      (fun r' hr' => hall r' (List.mem_cons_of_mem _ hr'))
    have hdo : doAll w s (r :: rs) = doAll w (r.Do w s).2 rs := by simp [doAll]
    rw [hdo, hrest.1, hrest.2, hstep]
    constructor
    · rw [CountRequestsDone_eq _ method url _ rfl, CountRequestsDone_eq s method url done hdone]
      simp only [GoMap.set, if_true, Option.getD_some, List.length_cons]
      omega
    · simp [GetRequestStack]

/-- The mock layer once a constructor has run: with a mock `m` without injected error
registered under `method + url` and the table of counters allocated, each `Do` of a
mocked request with that method and url returns a Response with `m.StatusCode`, the
bytes of `m.JSONBody` and a `nil` Error, raises the counter of `method + url` by one,
leaves the other counters, and appends the record `(url, m.JSONBody, request body)`
at the end of the call log; so after a fresh mock client, `SetMockCall(method, url, m)`
and `n` such calls, `CountRequestsDone` is `n` and the call log holds the `n` records
in call order. -/
theorem Do_mock_registered_allocated (w : World) (s : Sys) (method url : String)
    (m : MockResponse) (hm : m.InternalError = none) :
    (∀ (s1 : Sys) (done : GoMap Nat) (r : Request), s1.mockCalls (method ++ url) = some m →
      s1.requestsDone = some done →
      r.isMocked = true → r.Method = method → r.URL = url →
        (r.Do w s1).1 = .returned (some
          { StatusCode := m.StatusCode, BodyBytes := some m.JSONBody, Error := none }) ∧
        CountRequestsDone (r.Do w s1).2 method url = CountRequestsDone s1 method url + 1 ∧
        (∀ k, k ≠ method ++ url →
          ∃ done', (r.Do w s1).2.requestsDone = some done' ∧ done' k = done k) ∧
        GetRequestStack (r.Do w s1).2 =
          GetRequestStack s1 ++
            [{ URL := url, ResponseBody := m.JSONBody, RequestBody := r.Body }] ∧
        (r.Do w s1).2.mockCalls = s1.mockCalls) ∧
    (∀ (t : Option Nat) (rs : List Request),
      (∀ r ∈ rs, r.isMocked = true ∧ r.Method = method ∧ r.URL = url) →
        CountRequestsDone (doAll w (SetMockCall (NewDefaultMockClient s t).2 method url m) rs)
          method url = rs.length ∧
        GetRequestStack (doAll w (SetMockCall (NewDefaultMockClient s t).2 method url m) rs) =
          rs.map (fun r =>
            { URL := url, ResponseBody := m.JSONBody, RequestBody := r.Body })) := by
  constructor
  · intro s1 done r hreg hdone hmock hM hU
    have hdo : r.Do w s1 = handleMockRequest s1 r url method := by
      simp [Request.Do, hmock, hM, hU]
    rw [hdo, handleMockRequest_found s1 r url method m done hmock hreg hm hdone]
    refine ⟨rfl, ?_, ?_, rfl, rfl⟩
    · rw [CountRequestsDone_eq _ method url _ rfl, CountRequestsDone_eq s1 method url done hdone]
      simp only [GoMap.set, if_true, Option.getD_some]
    · intro k hk
      exact ⟨_, rfl, by simp [GoMap.set, hk]⟩
  · intro t rs hall
    have hreg : (SetMockCall (NewDefaultMockClient s t).2 method url m).mockCalls
        (method ++ url) = some m := by
      simp [SetMockCall, GoMap.set]
    have h := doAll_registered w method url m hm rs _ GoMap.empty hreg rfl hall
    rw [h.1, h.2]
    constructor
    · simp [CountRequestsDone, SetMockCall, NewDefaultMockClient, Sys.resetMock, GoMap.empty]
    · simp [GetRequestStack, SetMockCall, NewDefaultMockClient, Sys.resetMock]

/-- C4: on a `MockClient` made without constructor (the zero value), with
`SetMockCall("GET", "/users/1", m)` for a mock without injected error, `Do` of the
mocked `GET /users/1` panics on the write to the counter table, which only the
constructors allocate: no Response is returned, no counter raised and no record
appended. After `NewDefaultMockClient` the same call returns the registered Response
and the counter is 1. -/
theorem Do_mock_panics_without_constructor :
    ((MockClient.Get {} "/users/1").Do sampleWorld
        (SetMockCall sampleSys "GET" "/users/1"
          { StatusCode := 200, JSONBody := "\x7b\"id\":1\x7d" })).1 =
      .panicked "assignment to entry in nil map" ∧
    CountRequestsDone
      ((MockClient.Get {} "/users/1").Do sampleWorld
        (SetMockCall sampleSys "GET" "/users/1"
          { StatusCode := 200, JSONBody := "\x7b\"id\":1\x7d" })).2 "GET" "/users/1" = 0 ∧
    GetRequestStack
      ((MockClient.Get {} "/users/1").Do sampleWorld
        (SetMockCall sampleSys "GET" "/users/1"
          { StatusCode := 200, JSONBody := "\x7b\"id\":1\x7d" })).2 = [] ∧
    ((MockClient.Get {} "/users/1").Do sampleWorld
        (SetMockCall (NewDefaultMockClient sampleSys none).2 "GET" "/users/1"
          { StatusCode := 200, JSONBody := "\x7b\"id\":1\x7d" })).1 =
      .returned (some { StatusCode := 200, BodyBytes := some "\x7b\"id\":1\x7d" }) ∧
    CountRequestsDone
      ((MockClient.Get {} "/users/1").Do sampleWorld
        (SetMockCall (NewDefaultMockClient sampleSys none).2 "GET" "/users/1"
          { StatusCode := 200, JSONBody := "\x7b\"id\":1\x7d" })).2 "GET" "/users/1" = 1 := by
  decide

/-- C5: with a mock registered under `method + url` whose injected error is `e`, `Do`
of a mocked request with that method and url returns the Response with status 500 and
Error `e`, and the state is the one before the call: every counter and the call log
are unchanged. -/
theorem Do_mock_injected_error (w : World) (s : Sys) (r : Request) (m : MockResponse)
    (e : GoError) (hmock : r.isMocked = true)
    (hreg : s.mockCalls (r.Method ++ r.URL) = some m) (herr : m.InternalError = some e) :
    r.Do w s = (.returned (some { StatusCode := 500, Error := some e }), s) := by
  simp [Request.Do, handleMockRequest, hmock, hreg, herr]

/-- Witness of C5: `GET /down` registered with an injected error. -/
theorem Do_mock_injected_error_witness :
    (MockClient.Get {} "/down").Do sampleWorld
        (SetMockCall sampleSys "GET" "/down" { InternalError := some (.New "boom") }) =
      (.returned (some { StatusCode := 500, Error := some (.New "boom") }),
        SetMockCall sampleSys "GET" "/down" { InternalError := some (.New "boom") }) :=
  Do_mock_injected_error sampleWorld _ (MockClient.Get {} "/down")
    { InternalError := some (.New "boom") } (.New "boom") rfl
    (by simp [SetMockCall, GoMap.set, MockClient.Get]) rfl

/-- C6: `Do` of a mocked request whose `method + url` has no entry in the registry
marks the request's test (`r.t`) as failed; `Do` of a mocked request whose
`method + url` is registered leaves every test as it was. -/
theorem Do_mock_miss_fails_test (w : World) (s : Sys) (r : Request)
    (hmock : r.isMocked = true) :
    (∀ tid : Nat, s.mockCalls (r.Method ++ r.URL) = none → r.t = some tid →
      ((r.Do w s).2.tests tid).failed = true) ∧
    (∀ m : MockResponse, s.mockCalls (r.Method ++ r.URL) = some m →
      (r.Do w s).2.tests = s.tests) := by
  constructor
  · intro tid hnone ht
    cases hd : s.requestsDone <;>
      simp [Request.Do, handleMockRequest, hmock, hnone, ht, Sys.failTest, hd]
  · intro m hreg
    simp only [Request.Do, handleMockRequest, hmock, hreg, if_true]
    by_cases he : m.InternalError = none <;> cases hd : s.requestsDone <;> simp [he, hd]

/-- Witness of C6: a fresh mock client of test 7 and a call that was never
registered. -/
theorem Do_mock_miss_fails_test_witness :
    (((MockClient.Get { test := some 7 } "/x").Do sampleWorld
        (NewDefaultMockClient sampleSys (some 7)).2).2.tests 7).failed = true :=
  (Do_mock_miss_fails_test sampleWorld (NewDefaultMockClient sampleSys (some 7)).2
    (MockClient.Get { test := some 7 } "/x") rfl).1 7 rfl rfl

/-- A call of `send` for a cached request that returns a Response without Error has
written that Response to the cache of the client. -/
theorem send_inv (w : World) (s s1 : Sys) (r : Request) (c : Nat) (url : String)
    (req : HttpRequest) (resp : Response) (hcached : r.cached = true)
    (h : send w s r c url req = (.returned (some resp), s1)) (herr : resp.Error = none) :
    ∃ mc, (s.clients c).Cache = some mc ∧
      s1.clients c =
        { s.clients c with
          Cache := some (mc.SaveWithTTL s1.now (r.Method ++ url) (some (.response resp))
            r.cacheTTL) } := by
  unfold send at h
  simp only [hcached, if_true] at h
  split at h
  · simp only [Prod.mk.injEq, Outcome.returned.injEq, Option.some.injEq] at h
    rw [← h.1] at herr
    simp at herr
  · split at h
    · simp at h
    · split at h
      · simp only [Prod.mk.injEq, Outcome.returned.injEq, Option.some.injEq] at h
        rw [← h.1] at herr
        simp at herr
      · split at h
        · simp at h
        · rename_i mc hmc
          simp only [Prod.mk.injEq, Outcome.returned.injEq, Option.some.injEq] at h
          refine ⟨mc, ?_, ?_⟩
          · simpa using hmc
          · rw [← h.2, ← h.1]
            simp [Sys.setClient]

/-- A call of `build` that returns a Response after a transport call has gone through
`send`. -/
theorem build_inv (w : World) (s s1 : Sys) (r : Request) (c : Nat) (url : String)
    (ctx : Option Context) (resp : Response)
    (h : build w s r c url ctx = (.returned (some resp), s1)) (hsent : s1.sent ≠ s.sent) :
    ∃ req, send w s r c url req = (.returned (some resp), s1) := by
  unfold build at h
  cases hB : r.Body with
  | none =>
    simp only [hB] at h
    cases hN : w.NewRequest r.Method url none <;> cases hcx : r.ctx <;> cases ctx <;>
      simp only [hN, hcx] at h <;> first | exact ⟨_, h⟩ | (simp at h)
  | some b =>
    simp only [hB] at h
    cases hM : w.Marshal b with
    | error e =>
      simp only [hM, Prod.mk.injEq] at h
      exact absurd (by rw [← h.2]) hsent
    | ok bytes =>
      simp only [hM] at h
      cases hN : w.NewRequest r.Method url (some bytes) <;> cases hcx : r.ctx <;> cases ctx <;>
        simp only [hN, hcx] at h <;> first | exact ⟨_, h⟩ | (simp at h)

/-- A first `Do` of a cached request that went through the transport and returned a
Response without Error has written that Response to the cache of the client, under
the key `method + baseURL + path`, with the TTL of the request. -/
theorem Do_fetched_inv (w : World) (s s1 : Sys) (r : Request) (c : Nat) (resp : Response)
    (hm : r.isMocked = false) (hc : r.client = some c) (hcached : r.cached = true)
    (hfirst : r.Do w s = (.returned (some resp), s1))
    (hsent : s1.sent ≠ s.sent) (herr : resp.Error = none) :
    ∃ mc, (s.clients c).Cache = some mc ∧
      s1.clients c =
        { s.clients c with
          Cache := some (mc.SaveWithTTL s1.now
            (r.Method ++ ((s.clients c).Config.BaseURL ++ r.URL)) (some (.response resp))
            r.cacheTTL) } := by
  simp only [Request.Do, hm, hc, Bool.false_eq_true, if_false] at hfirst
  split at hfirst
  · simp only [Prod.mk.injEq] at hfirst
    exact absurd (by rw [← hfirst.2]) hsent
  · simp at hfirst
  · split at hfirst
    · simp at hfirst
    · obtain ⟨req, hreq⟩ := build_inv w s s1 r c _ _ resp hfirst hsent
      exact send_inv w s s1 r c _ req resp hcached hreq herr

/-- The failure of the request constructor on a request without context, timeout,
cache or body: `Do` returns `nil` and the error is lost. -/
theorem Do_nil_of_NewRequest_error (w : World) (s : Sys) (r : Request) (c : Nat) (e : GoError)
    (hm : r.isMocked = false) (hc : r.client = some c) (hcached : r.cached = false)
    (ht : r.TimeoutInMillis ≤ 0) (hctx : r.ctx = none) (hbody : r.Body = none)
    (hN : w.NewRequest r.Method ((s.clients c).Config.BaseURL ++ r.URL) none = .error e) :
    r.Do w s = (.returned none, s) := by
  have ht' : ¬ (r.TimeoutInMillis > 0) := by omega
  simp [Request.Do, hm, hc, cacheRead, hcached, callContext, ht', build, hctx, hbody, hN]

/-- A positive timeout on a request without context: `Do` panics in
`context.WithTimeout` once it is past the cache. -/
theorem Do_panics_of_timeout_without_context (w : World) (s : Sys) (r : Request) (c : Nat)
    (hm : r.isMocked = false) (hc : r.client = some c)
    (hmiss : cacheRead s r c ((s.clients c).Config.BaseURL ++ r.URL) = .miss)
    (ht : 0 < r.TimeoutInMillis) (hctx : r.ctx = none) :
    r.Do w s = (.panicked "cannot create context from nil parent", s) := by
  simp [Request.Do, hm, hc, hmiss, callContext, ht, hctx]

/-- The serialisation failure on a request that is past the cache and whose context
can be built (no positive timeout, or a context is set): `Do` returns the Response
with status 800 and the encoder's error, and the state is the one before the call (no
transport call, no cache write). -/
theorem Do_marshal_error (w : World) (s : Sys) (r : Request) (c : Nat) (b : GoValue)
    (e : GoError) (hm : r.isMocked = false) (hc : r.client = some c)
    (hmiss : cacheRead s r c ((s.clients c).Config.BaseURL ++ r.URL) = .miss)
    (hctx : r.TimeoutInMillis ≤ 0 ∨ r.ctx ≠ none) (hB : r.Body = some b)
    (hM : w.Marshal b = .error e) :
    r.Do w s = (.returned (some { StatusCode := 800, Error := some e }), s) := by
  simp only [Request.Do, hm, hc, Bool.false_eq_true, if_false, hmiss, callContext]
  rcases hctx with ht | hx
  · have ht' : ¬ (r.TimeoutInMillis > 0) := by omega
    simp [ht', build, hB, hM]
  · obtain ⟨cx, hcx⟩ := Option.ne_none_iff_exists'.mp hx
    by_cases ht : r.TimeoutInMillis > 0 <;> simp [ht, hcx, build, hB, hM]

/-- C1: `Do` of a non-mocked request whose method the request constructor rejects
returns the `nil` Response (no Response value, the error is lost) when the request
has no context, and panics when it has one; no transport call is made. -/
theorem Do_returns_nil_on_rejected_method :
    ((RestClient.Request 0 "BAD METHOD" "/x" none).Do sampleWorld sampleSys).1 =
      .returned none ∧
    ((RestClient.Request 0 "BAD METHOD" "/x" none).Do sampleWorld sampleSys).2.sent = [] ∧
    (((RestClient.Request 0 "BAD METHOD" "/x" none).WithContext (some Background)).Do
      sampleWorld sampleSys).1 = .panicked nilDereference := by
  decide

/-- C2, as stated, fails. On the default client (its cache does not return expired
entries), a `GET /x` with `WithCache` of 1000 ns succeeds through the transport, and
the same request 2000 ns later goes through the transport a second time. And on the
default client whose cache is at its bound of thirty entries, the same request with a
TTL of one hour succeeds through the transport, the engine's worker prunes the cache,
the new entry included, and the same request right after goes through the transport a
second time. -/
theorem Do_second_call_after_ttl_hits_transport :
    (((RestClient.Get 0 "/x").WithCache 1000).Do sampleWorld sampleSys).1 =
      .returned (some
        { StatusCode := 200
          RawResponse := some { StatusCode := 200, Body := some { data := "ok" } }
          BodyBytes := some "ok" }) ∧
    (((RestClient.Get 0 "/x").WithCache 1000).Do sampleWorld sampleSys).2.sent.length = 1 ∧
    (((RestClient.Get 0 "/x").WithCache 1000).Do sampleWorld
      ((((RestClient.Get 0 "/x").WithCache 1000).Do sampleWorld sampleSys).2.advance
        2000)).2.sent.length = 2 ∧
    (((RestClient.Get 0 "/x").WithCache 3600000000000).Do sampleWorld fullSys).1 =
      .returned (some
        { StatusCode := 200
          RawResponse := some { StatusCode := 200, Body := some { data := "ok" } }
          BodyBytes := some "ok" }) ∧
    (((RestClient.Get 0 "/x").WithCache 3600000000000).Do sampleWorld fullSys).2.sent.length
      = 1 ∧
    (((RestClient.Get 0 "/x").WithCache 3600000000000).Do sampleWorld
      ((((RestClient.Get 0 "/x").WithCache 3600000000000).Do sampleWorld fullSys).2.prune
        0)).2.sent.length = 2 := by
  decide

/-- C2, amended: for a client with a cache and a non-mocked request with caching
enabled, if a first `Do` obtains a transport response and reads its body (it returns
`resp` without Error after a transport call, leaving the state `s1`), then a second
`Do` with the same method and target URL on the same client, in any later state `s2`
in which the engine still holds the entry that the first call stored (no intervening
`Delete`, and the entry neither evicted nor replaced), returns `resp` and leaves the
state as it is (no transport call is made), provided the TTL has not elapsed at the
second call or the cache was built to return expired entries. -/
theorem Do_second_served_from_cache (w : World) (s s1 s2 : Sys) (r r2 : Request) (c : Nat)
    (resp : Response) (mc2 : cache.MemoryCache CacheValue)
    (hm : r.isMocked = false) (hc : r.client = some c) (hcached : r.cached = true)
    (hfirst : r.Do w s = (.returned (some resp), s1))
    (hsent : s1.sent ≠ s.sent) (herr : resp.Error = none)
    (hm2 : r2.isMocked = false) (hc2 : r2.client = some c) (hcached2 : r2.cached = true)
    (hM : r2.Method = r.Method)
    (hU : (s2.clients c).Config.BaseURL ++ r2.URL = (s.clients c).Config.BaseURL ++ r.URL)
    (hcache2 : (s2.clients c).Cache = some mc2)
    (hkept : ∀ mc1, (s1.clients c).Cache = some mc1 →
      mc2.cCache.Get (r.Method ++ ((s.clients c).Config.BaseURL ++ r.URL)) =
        mc1.cCache.Get (r.Method ++ ((s.clients c).Config.BaseURL ++ r.URL)))
    (hfresh : s2.now ≤ s1.now + r.cacheTTL ∨ mc2.returnExpired = true) :
    r2.Do w s2 = (.returned (some resp), s2) := by
  obtain ⟨mc, _, hs1⟩ := Do_fetched_inv w s s1 r c resp hm hc hcached hfirst hsent herr
  have hentry : mc2.cCache.Get (r.Method ++ ((s.clients c).Config.BaseURL ++ r.URL)) =
      some { value := some (.response resp), expires := s1.now + r.cacheTTL } := by
    rw [hkept _ (by rw [hs1])]
    simp [cache.MemoryCache.SaveWithTTL, cache.CCache.Set, cache.CCache.Get, GoMap_set_self]
  have hget : (mc2.Get s2.now s2.now
      (r.Method ++ ((s.clients c).Config.BaseURL ++ r.URL))).2 = some (.response resp) := by
    rw [cache.Get_of_entry _ _ _ _ _ hentry]
    rcases hfresh with hd | hre
    · have : ¬ (s1.now + r.cacheTTL < s2.now) := by omega
      simp [this]
    · by_cases hx : s1.now + r.cacheTTL < s2.now
      · simp [hx, hre]
      · simp [hx]
  simp only [Request.Do, hm2, hc2, Bool.false_eq_true, if_false, cacheRead, hcached2, if_true,
    hcache2, hM, hU, hget]

/-- Witness of C2, amended: the same `GET /x` with a TTL of 1000 ns, called again
500 ns after the first call returned, the engine's worker having run in between on a
cache that is below its bound. -/
theorem Do_second_served_from_cache_witness :
    (((((RestClient.Get 0 "/x").WithCache 1000).Do sampleWorld sampleSys).2.prune 0).advance
        500).now ≤
      (((RestClient.Get 0 "/x").WithCache 1000).Do sampleWorld sampleSys).2.now +
        ((RestClient.Get 0 "/x").WithCache 1000).cacheTTL ∧
    ((RestClient.Get 0 "/x").WithCache 1000).Do sampleWorld
        (((((RestClient.Get 0 "/x").WithCache 1000).Do sampleWorld sampleSys).2.prune
          0).advance 500) =
      (.returned (some
        { StatusCode := 200
          RawResponse := some { StatusCode := 200, Body := some { data := "ok" } }
          BodyBytes := some "ok" }),
        ((((RestClient.Get 0 "/x").WithCache 1000).Do sampleWorld sampleSys).2.prune
          0).advance 500) :=
  ⟨by decide,
   Do_second_served_from_cache sampleWorld sampleSys
    (((RestClient.Get 0 "/x").WithCache 1000).Do sampleWorld sampleSys).2
    (((((RestClient.Get 0 "/x").WithCache 1000).Do sampleWorld sampleSys).2.prune 0).advance
      500)
    ((RestClient.Get 0 "/x").WithCache 1000) ((RestClient.Get 0 "/x").WithCache 1000) 0
    { StatusCode := 200
      RawResponse := some { StatusCode := 200, Body := some { data := "ok" } }
      BodyBytes := some "ok" }
    (cache.MemoryCache.prune
      ((cache.NewMemoryCache "restclient" 30 3600 false).SaveWithTTL 0 "GET/x"
        (some (CacheValue.response
          { StatusCode := 200
            RawResponse := some { StatusCode := 200, Body := some { data := "ok" } }
            BodyBytes := some "ok" })) 1000))
    rfl rfl rfl (Prod.ext (by decide) rfl) (by decide) rfl rfl rfl rfl rfl rfl (by rfl)
    (fun mc1 h => by
      obtain rfl := Option.some.inj h
      rfl)
    (Or.inl (by decide))⟩

/-- C3: `Do` of a `POST` whose body cannot be serialised, on a request with a timeout
of 100 ms and no context, on the default client and with caching off: the call panics
in `context.WithTimeout` before the body is serialised, where a Response with status
800 was due; no transport call is made. -/
theorem Do_panics_before_serialisation :
    (((RestClient.Post 0 "/x" (some { id := "chan" })).WithTimeout 100).Do sampleWorld
      sampleSys).1 = .panicked "cannot create context from nil parent" ∧
    (((RestClient.Post 0 "/x" (some { id := "chan" })).WithTimeout 100).Do sampleWorld
      sampleSys).2.sent = [] ∧
    ((RestClient.Post 0 "/x" (some { id := "chan" })).Do sampleWorld sampleSys).1 =
      .returned (some
        { StatusCode := 800, Error := some (.New "json: unsupported type: chan int") }) := by
  decide

end rest

/-! ## properties of ReplaceTags -/

namespace string_utils

/-- Passing over `k` characters of a match is dropping them. -/
theorem replaceFrom_skip (old new : List Char) :
    ∀ (k : Nat) (s : List Char), replaceFrom old new k s = replaceFrom old new 0 (s.drop k) := by
  intro k
  induction k with
  | zero => intro s; simp
  | succ k ih =>
    intro s
    cases s with
    | nil => simp [replaceFrom]
    | cons c cs => simp [replaceFrom, ih cs]

/-- At an occurrence of `old` the scan puts `new` and resumes after the occurrence. -/
theorem replaceFrom_match (o : Char) (os new rest : List Char) :
    replaceFrom (o :: os) new 0 ((o :: os) ++ rest) = new ++ replaceFrom (o :: os) new 0 rest := by
  have hp : (o :: os).isPrefixOf (o :: (os ++ rest)) = true := by
    rw [List.isPrefixOf_iff_prefix]
    exact ⟨rest, by simp⟩
  simp only [List.cons_append, replaceFrom, hp, if_true, List.length_cons, Nat.add_sub_cancel]
  rw [replaceFrom_skip]
  simp

/-- A text without `{` holds no occurrence of a pattern that starts with `{`: the scan
copies it. -/
theorem replaceFrom_text (os new rest : List Char) :
    ∀ s : List Char, Contains s '{' = false →
      replaceFrom ('{' :: os) new 0 (s ++ rest) = s ++ replaceFrom ('{' :: os) new 0 rest := by
  intro s
  induction s with
  | nil => intro _; simp
  | cons c cs ih =>
    intro h
    have hc : c ≠ '{' := by
      intro hc; simp [Contains, hc] at h
    have hcs : Contains cs '{' = false := by
      simp [Contains] at h ⊢; exact h.2
    have hp : ('{' :: os).isPrefixOf (c :: (cs ++ rest)) = false := by
      simp [List.isPrefixOf, Ne.symm hc]
    simp [replaceFrom, hp, ih hcs]

/-- Two paths without `}`: if one followed by `}` starts the other followed by `}`, they
are the same path. -/
theorem closed_prefix_eq (rest : List Char) :
    ∀ t t' : List Char, Contains t '}' = false → Contains t' '}' = false →
      (t ++ ['}']).isPrefixOf (t' ++ '}' :: rest) = true → t = t' := by
  intro t
  induction t with
  | nil =>
    intro t' _ h' hp
    cases t' with
    | nil => rfl
    | cons x xs =>
      simp [List.isPrefixOf] at hp
      subst hp
      simp [Contains] at h'
  | cons y ys ih =>
    intro t' h h' hp
    cases t' with
    | nil =>
      simp [List.isPrefixOf] at hp
      simp [Contains, hp.1] at h
    | cons x xs =>
      simp [List.isPrefixOf] at hp
      have hys : Contains ys '}' = false := by simp [Contains] at h ⊢; exact h.2
      have hxs : Contains xs '}' = false := by simp [Contains] at h' ⊢; exact h'.2
      have := ih xs hys hxs (by simpa using hp.2)
      rw [hp.1, this]


/-- The characters of the pattern `"{" + tag + "}"`. -/
theorem tag_data (t : List Char) :
    ("\x7b" ++ String.mk t ++ "\x7d").data = '{' :: (t ++ ['}']) := by
  simp [String.data_append]

/-- One call of `ReplaceAll` for the placeholder `{t}` on a template made of well-formed
pieces fills exactly the pieces that are that placeholder, and the pieces stay
well-formed when the value has no `{`. -/
theorem replaceFrom_chunks (t v : List Char) (ht : Contains t '}' = false)
    (hv : Contains v '{' = false) :
    ∀ chunks : List Chunk, (∀ ch ∈ chunks, ch.ok = true) →
      replaceFrom ('{' :: (t ++ ['}'])) v 0 (renderAll chunks) =
          renderAll (chunks.map (Chunk.fill t v)) ∧
        ∀ ch ∈ chunks.map (Chunk.fill t v), ch.ok = true := by
  intro chunks
  induction chunks with
  | nil => intro _; simp [renderAll, replaceFrom]
  | cons ch rest ih =>
    intro hok
    obtain ⟨ihr, ihok⟩ := ih (fun c hc => hok c (List.mem_cons_of_mem _ hc))
    have hch := hok ch (List.mem_cons_self _ _)
    cases ch with
    | text s =>
      have hs : Contains s '{' = false := by simpa [Chunk.ok] using hch
      constructor
      · have : renderAll (Chunk.text s :: rest) = s ++ renderAll rest := by simp [renderAll, Chunk.render]
        rw [this, replaceFrom_text _ _ _ s hs, ihr]
        simp [renderAll, Chunk.render, Chunk.fill]
      · intro c hc
        simp only [List.map_cons, List.mem_cons] at hc
        rcases hc with hc | hc
        · rw [hc]; simpa [Chunk.fill] using hch
        · exact ihok c hc
    | tag t' =>
      have ht' : Contains t' '{' = false ∧ Contains t' '}' = false := by
        simpa [Chunk.ok] using hch
      have hr : renderAll (Chunk.tag t' :: rest) = ('{' :: (t' ++ ['}'])) ++ renderAll rest := by
        simp [renderAll, Chunk.render]
      by_cases heq : t' = t
      · subst heq
        constructor
        · rw [hr, replaceFrom_match, ihr]
          simp [renderAll, Chunk.render, Chunk.fill]
        · intro c hc
          simp only [List.map_cons, List.mem_cons] at hc
          rcases hc with hc | hc
          · rw [hc]; simp [Chunk.fill, Chunk.ok, hv]
          · exact ihok c hc
      · constructor
        · have hp : ('{' :: (t ++ ['}'])).isPrefixOf ('{' :: (t' ++ '}' :: renderAll rest)) = false := by
            cases hpre : ('{' :: (t ++ ['}'])).isPrefixOf ('{' :: (t' ++ '}' :: renderAll rest)) with
            | false => rfl
            | true =>
              exfalso
              apply heq
              have : (t ++ ['}']).isPrefixOf (t' ++ '}' :: renderAll rest) = true := by
                simpa [List.isPrefixOf] using hpre
              exact (closed_prefix_eq _ t t' ht ht'.2 this).symm
          have hclose : Contains (t' ++ ['}']) '{' = false := by
            simp [Contains] at ht' ⊢
            exact ht'.1
          have h2 : '{' :: (t' ++ ['}']) ++ renderAll rest = '{' :: (t' ++ '}' :: renderAll rest) := by
            simp
          have h3 : t' ++ '}' :: renderAll rest = (t' ++ ['}']) ++ renderAll rest := by simp
          rw [hr, h2]
          simp only [replaceFrom, hp]
          rw [h3, replaceFrom_text _ _ _ _ hclose, ihr]
          simp [renderAll, Chunk.render, Chunk.fill, heq]
        · intro c hc
          simp only [List.map_cons, List.mem_cons] at hc
          rcases hc with hc | hc
          · rw [hc]; simpa [Chunk.fill, heq] using hch
          · exact ihok c hc


/-- The same step on strings. -/
theorem ReplaceAll_chunks (t : String) (v : String) (chunks : List Chunk)
    (ht : Contains t.data '}' = false) (hv : Contains v.data '{' = false)
    (hok : ∀ ch ∈ chunks, ch.ok = true) :
    ReplaceAll (String.mk (renderAll chunks)) ("\x7b" ++ t ++ "\x7d") v =
        String.mk (renderAll (chunks.map (Chunk.fill t.data v.data))) ∧
      ∀ ch ∈ chunks.map (Chunk.fill t.data v.data), ch.ok = true := by
  have h := replaceFrom_chunks t.data v.data ht hv chunks hok
  refine ⟨?_, h.2⟩
  have hd : ("\x7b" ++ t ++ "\x7d").data = '{' :: (t.data ++ ['}']) := tag_data t.data
  simp only [ReplaceAll, hd, h.1]

/-- When every tag is found in the payload the loop runs to its end: it returns without
error the text after the replacements, made tag by tag. -/
theorem replaceLoop_all_exist (Get : String → String → Option String) (input : String) :
    ∀ (tags : List String) (newStr : String), (∀ t ∈ tags, (Get input t).isSome = true) →
      replaceLoop Get input tags newStr =
        (tags.foldl
          (fun s t => ReplaceAll s ("\x7b" ++ t ++ "\x7d") ((Get input t).getD "")) newStr,
          none) := by
  intro tags
  induction tags with
  | nil => intro newStr _; simp [replaceLoop]
  | cons t ts ih =>
    intro newStr h
    obtain ⟨v, hv⟩ := Option.isSome_iff_exists.mp (h t (List.mem_cons_self _ _))
    simp only [replaceLoop, hv, List.foldl_cons, Option.getD_some]
    exact ih _ (fun t' ht' => h t' (List.mem_cons_of_mem _ ht'))

/-- When some tag is missing from the payload the loop returns the empty string and the
error `tag not found`, whatever was replaced before. -/
theorem replaceLoop_error (Get : String → String → Option String) (input : String) :
    ∀ (tags : List String) (newStr : String), (∃ t ∈ tags, Get input t = none) →
      replaceLoop Get input tags newStr = ("", some (.New "tag not found")) := by
  intro tags
  induction tags with
  | nil => intro newStr h; obtain ⟨t, ht, _⟩ := h; simp at ht
  | cons t ts ih =>
    intro newStr h
    cases hg : Get input t with
    | none => simp [replaceLoop, hg]
    | some v =>
      simp only [replaceLoop, hg]
      apply ih
      obtain ⟨t', ht', hn⟩ := h
      simp only [List.mem_cons] at ht'
      rcases ht' with rfl | ht'
      · rw [hg] at hn; cases hn
      · exact ⟨t', ht', hn⟩

/-- Filling leaves a text as it is. -/
theorem fill_fold_text (f : String → List Char) (s : List Char) :
    ∀ ts : List String,
      ts.foldl (fun c t => Chunk.fill t.data (f t) c) (Chunk.text s) = Chunk.text s := by
  intro ts
  induction ts with
  | nil => rfl
  | cons t ts ih => simpa [Chunk.fill] using ih

/-- Filling for a list of paths turns a placeholder whose path is in the list into the
value of that path. -/
theorem fill_fold_tag (f : String → List Char) (t0 : List Char) :
    ∀ ts : List String, String.mk t0 ∈ ts →
      ts.foldl (fun c t => Chunk.fill t.data (f t) c) (Chunk.tag t0) =
        Chunk.text (f (String.mk t0)) := by
  intro ts
  induction ts with
  | nil => intro h; simp at h
  | cons t ts ih =>
    intro h
    by_cases ht : t.data = t0
    · have : t = String.mk t0 := by rw [← ht]
      subst this
      simp only [List.foldl_cons, Chunk.fill, if_true]
      exact fill_fold_text f _ ts
    · have hne : String.mk t0 ≠ t := by
        intro he; apply ht; rw [← he]
      simp only [List.mem_cons] at h
      rcases h with h | h
      · exact absurd h hne
      · have hne2 : Chunk.tag t0 ≠ Chunk.tag t.data := by
          intro he; injection he with he; exact ht he.symm
        simp only [List.foldl_cons, Chunk.fill, hne2, if_false]
        exact ih h

/-- Filling the whole template path by path is filling each piece path by path. -/
theorem fold_map_fill (f : String → List Char) :
    ∀ (ts : List String) (chunks : List Chunk),
      ts.foldl (fun cs t => cs.map (Chunk.fill t.data (f t))) chunks =
        chunks.map (fun ch => ts.foldl (fun c t => Chunk.fill t.data (f t) c) ch) := by
  intro ts
  induction ts with
  | nil => intro chunks; simp
  | cons t ts ih =>
    intro chunks
    simp only [List.foldl_cons]
    rw [ih]
    simp [List.map_map]

/-- When the list holds the path of every placeholder, filling path by path gives the
simultaneous substitution. -/
theorem renderAll_filled (val : String → Option String) (ts : List String) :
    ∀ chunks : List Chunk, (∀ ch ∈ chunks, ∀ p, ch.path? = some p → p ∈ ts) →
      renderAll (chunks.map
        (fun ch => ts.foldl (fun c t => Chunk.fill t.data ((val t).getD "").data c) ch)) =
        substitute val chunks := by
  intro chunks
  induction chunks with
  | nil => intro _; simp [renderAll, substitute]
  | cons ch rest ih =>
    intro h
    have ihr := ih (fun c hc => h c (List.mem_cons_of_mem _ hc))
    have hrest : renderAll (ch :: rest |>.map
        (fun ch => ts.foldl (fun c t => Chunk.fill t.data ((val t).getD "").data c) ch)) =
        (ts.foldl (fun c t => Chunk.fill t.data ((val t).getD "").data c) ch).render ++
          renderAll (rest.map
            (fun ch => ts.foldl (fun c t => Chunk.fill t.data ((val t).getD "").data c) ch)) := by
      simp [renderAll]
    rw [hrest, ihr]
    cases ch with
    | text s =>
      rw [fill_fold_text (fun t => ((val t).getD "").data) s ts]
      simp [substitute, Chunk.render]
    | tag t0 =>
      have hmem : String.mk t0 ∈ ts := h _ (List.mem_cons_self _ _) _ rfl
      rw [fill_fold_tag (fun t => ((val t).getD "").data) t0 ts hmem]
      simp [substitute, Chunk.render]


/-- The scan passes over a text without `{`. -/
theorem scanInnermost_text (rest : List Char) :
    ∀ s : List Char, Contains s '{' = false →
      scanInnermost none (s ++ rest) = scanInnermost none rest := by
  intro s
  induction s with
  | nil => intro _; rfl
  | cons c cs ih =>
    intro h
    have hc : c ≠ '{' := by
      intro hc; simp [Contains, hc] at h
    have hcs : Contains cs '{' = false := by
      simp [Contains] at h ⊢; exact h.2
    simp [scanInnermost, hc, ih hcs]

/-- Inside a tag, the scan of a path followed by `}` yields that path. -/
theorem scanInnermost_tag (rest : List Char) :
    ∀ t acc : List Char, Contains t '{' = false → Contains t '}' = false →
      scanInnermost (some acc) (t ++ '}' :: rest) =
        String.mk (acc.reverse ++ t) :: scanInnermost none rest := by
  intro t
  induction t with
  | nil => intro acc _ _; simp [scanInnermost]
  | cons c cs ih =>
    intro acc h1 h2
    have hc1 : c ≠ '{' := by
      intro hc; simp [Contains, hc] at h1
    have hc2 : c ≠ '}' := by
      intro hc; simp [Contains, hc] at h2
    have hcs1 : Contains cs '{' = false := by
      simp [Contains] at h1 ⊢; exact h1.2
    have hcs2 : Contains cs '}' = false := by
      simp [Contains] at h2 ⊢; exact h2.2
    simp [scanInnermost, hc1, hc2, ih (c :: acc) hcs1 hcs2]

/-- The tags of a template made of well-formed pieces are the paths of its placeholders,
in order. -/
theorem scanInnermost_chunks :
    ∀ chunks : List Chunk, (∀ ch ∈ chunks, ch.ok = true) →
      scanInnermost none (renderAll chunks) = chunks.filterMap Chunk.path? := by
  intro chunks
  induction chunks with
  | nil => intro _; simp [renderAll, scanInnermost]
  | cons ch rest ih =>
    intro hok
    have ihr := ih (fun c hc => hok c (List.mem_cons_of_mem _ hc))
    have hch := hok ch (List.mem_cons_self _ _)
    cases ch with
    | text s =>
      have hs : Contains s '{' = false := by simpa [Chunk.ok] using hch
      have : renderAll (Chunk.text s :: rest) = s ++ renderAll rest := by
        simp [renderAll, Chunk.render]
      rw [this, scanInnermost_text _ s hs, ihr]
      simp [Chunk.path?]
    | tag t =>
      have ht : Contains t '{' = false ∧ Contains t '}' = false := by
        simpa [Chunk.ok] using hch
      have : renderAll (Chunk.tag t :: rest) = '{' :: (t ++ '}' :: renderAll rest) := by
        simp [renderAll, Chunk.render]
      rw [this]
      simp only [scanInnermost, if_true]
      rw [scanInnermost_tag _ t [] ht.1 ht.2, ihr]
      simp [Chunk.path?]

/-- The replacements made tag by tag on a template of well-formed pieces, when no value
has a `{`, are the fillings made path by path. -/
theorem foldl_ReplaceAll_chunks (Get : String → String → Option String) (input : String) :
    ∀ (ts : List String) (chunks : List Chunk), (∀ ch ∈ chunks, ch.ok = true) →
      (∀ t ∈ ts, Contains t.data '}' = false ∧
        Contains ((Get input t).getD "").data '{' = false) →
      ts.foldl (fun s t => ReplaceAll s ("\x7b" ++ t ++ "\x7d") ((Get input t).getD ""))
          (String.mk (renderAll chunks)) =
        String.mk (renderAll
          (ts.foldl (fun cs t => cs.map (Chunk.fill t.data ((Get input t).getD "").data))
            chunks)) := by
  intro ts
  induction ts with
  | nil => intro chunks _ _; rfl
  | cons t ts ih =>
    intro chunks hok h
    obtain ⟨ht, hv⟩ := h t (List.mem_cons_self _ _)
    obtain ⟨hstep, hok'⟩ := ReplaceAll_chunks t ((Get input t).getD "") chunks ht hv hok
    simp only [List.foldl_cons, hstep]
    exact ih _ hok' (fun t' ht' => h t' (List.mem_cons_of_mem _ ht'))

/-- The path of a placeholder of a well-formed template has no `}`. -/
theorem path_mem_ok (chunks : List Chunk) (hok : ∀ ch ∈ chunks, ch.ok = true) (t : String)
    (ht : t ∈ chunks.filterMap Chunk.path?) : Contains t.data '}' = false := by
  obtain ⟨ch, hch, hp⟩ := List.mem_filterMap.mp ht
  cases ch with
  | text s => simp [Chunk.path?] at hp
  | tag t0 =>
    have := hok _ hch
    simp only [Chunk.path?, Option.some.injEq] at hp
    subst hp
    simp only [Chunk.ok, Bool.and_eq_true, Bool.not_eq_true'] at this
    exact this.2

/-- C11, amended: for every template with no `}` before its first `{` and every
payload in which the path of every placeholder exists, `ReplaceTags` returns without
error the text obtained by replacing, placeholder after placeholder in order of
occurrence, every occurrence of `{path}` in the text so far by the value at that
path (sequential substitution); and when every `{` of the template opens a placeholder
(the template is made of well-formed pieces) and no value at a placeholder's path
contains `{`, that text is the simultaneous substitution: each placeholder replaced
by its value, all other text unchanged. -/
theorem ReplaceTags_substitutes (Get : String → String → Option String) (str input : String)
    (hlead : Contains (str.data.takeWhile (fun c => !decide (c = '{'))) '}' = false)
    (hexists : ∀ t ∈ innermostTags str, (Get input t).isSome = true) :
    ReplaceTags Get str input =
      ((innermostTags str).foldl
        (fun s t => ReplaceAll s ("\x7b" ++ t ++ "\x7d") ((Get input t).getD "")) str, none) ∧
    (∀ chunks : List Chunk, str.data = renderAll chunks → (∀ ch ∈ chunks, ch.ok = true) →
      (∀ t ∈ innermostTags str, Contains ((Get input t).getD "").data '{' = false) →
      ReplaceTags Get str input = (String.mk (substitute (Get input) chunks), none)) := by
  have htags : GetTagsFromString str = innermostTags str := by
    rw [GetTagsFromString_eq_scan_open, innermostTags, scanInnermost_lead str.data [] hlead]
  have h1 : ReplaceTags Get str input =
      ((innermostTags str).foldl
        (fun s t => ReplaceAll s ("\x7b" ++ t ++ "\x7d") ((Get input t).getD "")) str, none) := by
    rw [ReplaceTags, htags]
    exact replaceLoop_all_exist Get input _ str hexists
  refine ⟨h1, ?_⟩
  intro chunks hstr hok hval
  have hs : str = String.mk (renderAll chunks) := by
    rw [← hstr]
  have hN : innermostTags str = chunks.filterMap Chunk.path? := by
    rw [innermostTags, hstr, scanInnermost_chunks chunks hok]
  rw [h1]
  have hfold := foldl_ReplaceAll_chunks Get input (innermostTags str) chunks hok
    (fun t ht => ⟨path_mem_ok chunks hok t (hN ▸ ht), hval t ht⟩)
  rw [← hs] at hfold
  rw [hfold, fold_map_fill (fun t => ((Get input t).getD "").data),
    renderAll_filled (Get input) (innermostTags str) chunks
      (fun ch hch p hp => by rw [hN]; exact List.mem_filterMap.mpr ⟨ch, hch, hp⟩)]


/-- The function `ReplaceTags` on any template: it returns the error `tag not found` exactly when
a tag returned by `GetTagsFromString` is missing from the payload, the returned string
is then empty, and there is no other error. -/
theorem ReplaceTags_error_iff (Get : String → String → Option String) (str input : String) :
    ((ReplaceTags Get str input).2 = some (.New "tag not found") ↔
      ∃ t ∈ GetTagsFromString str, Get input t = none) ∧
    ((∃ t ∈ GetTagsFromString str, Get input t = none) →
      ReplaceTags Get str input = ("", some (.New "tag not found"))) ∧
    ((ReplaceTags Get str input).2 = none ∨
      (ReplaceTags Get str input).2 = some (.New "tag not found")) := by
  by_cases h : ∃ t ∈ GetTagsFromString str, Get input t = none
  · have := replaceLoop_error Get input (GetTagsFromString str) str h
    simp [ReplaceTags, this, h]
  · have hall : ∀ t ∈ GetTagsFromString str, (Get input t).isSome = true := by
      intro t ht
      cases hg : Get input t with
      | none => exact absurd ⟨t, ht, hg⟩ h
      | some v => rfl
    have := replaceLoop_all_exist Get input (GetTagsFromString str) str hall
    simp [ReplaceTags, this, h]

/-- Witness of C11, amended: the template `p {b} q {xvy}` on a payload that holds both
paths. -/
theorem ReplaceTags_substitutes_witness :
    Contains ("p \x7bb\x7d q \x7bxvy\x7d".data.takeWhile (fun c => !decide (c = '{'))) '}' = false ∧
    ReplaceTags sampleGet "p \x7bb\x7d q \x7bxvy\x7d" "\x7b\"b\":\"v\",\"xvy\":\"Z\"\x7d" =
      (String.mk (substitute (sampleGet "\x7b\"b\":\"v\",\"xvy\":\"Z\"\x7d")
        [.text "p ".data, .tag "b".data, .text " q ".data, .tag "xvy".data]), none) ∧
    String.mk (substitute (sampleGet "\x7b\"b\":\"v\",\"xvy\":\"Z\"\x7d")
        [.text "p ".data, .tag "b".data, .text " q ".data, .tag "xvy".data]) = "p v q Z" :=
  ⟨by decide,
   (ReplaceTags_substitutes sampleGet "p \x7bb\x7d q \x7bxvy\x7d"
      "\x7b\"b\":\"v\",\"xvy\":\"Z\"\x7d" (by decide) (by decide)).2
      [.text "p ".data, .tag "b".data, .text " q ".data, .tag "xvy".data]
      (by decide) (by decide) (by decide),
   by decide⟩

/-- C11, as stated, fails: on the template `{a} {b}` with the value `{b}` at `a` and `x`
at `b`, the result is `x x`: the text inserted for `{a}` is substituted again, where
simultaneous substitution gives `{b} x`. On `{x{b}y} {xvy}` with `v` at `b` and `Z`
at `xvy`, the inserted `v` completes a new placeholder and the result is `Z Z`, not
`{xvy} Z`. -/
theorem ReplaceTags_substitutes_again :
    ReplaceTags sampleGet "\x7ba\x7d \x7bb\x7d" "\x7b\"a\":\"\x7bb\x7d\",\"b\":\"x\"\x7d" =
      ("x x", none) ∧
    String.mk (renderAll [.tag "a".data, .text " ".data, .tag "b".data]) = "\x7ba\x7d \x7bb\x7d" ∧
    String.mk (substitute (sampleGet "\x7b\"a\":\"\x7bb\x7d\",\"b\":\"x\"\x7d")
      [.tag "a".data, .text " ".data, .tag "b".data]) = "\x7bb\x7d x" ∧
    ReplaceTags sampleGet "\x7bx\x7bb\x7dy\x7d \x7bxvy\x7d" "\x7b\"b\":\"v\",\"xvy\":\"Z\"\x7d" =
      ("Z Z", none) ∧
    String.mk (renderAll [.text "\x7bx".data, .tag "b".data, .text "y\x7d ".data, .tag "xvy".data]) =
      "\x7bx\x7bb\x7dy\x7d \x7bxvy\x7d" ∧
    String.mk (substitute (sampleGet "\x7b\"b\":\"v\",\"xvy\":\"Z\"\x7d")
      [.text "\x7bx".data, .tag "b".data, .text "y\x7d ".data, .tag "xvy".data]) =
      "\x7bxvy\x7d Z" := by
  decide

/-- C12, amended: for every template with no `}` before its first `{` and every
payload, `ReplaceTags` returns the error `tag not found` if and only if at least one
placeholder of the template (the text between a `{` and the next `}` with no `{` in
between) has a path that is absent from the payload, and in that case the returned
string is empty, whatever was substituted for earlier placeholders. -/
theorem ReplaceTags_error_iff_placeholder (Get : String → String → Option String)
    (str input : String)
    (hlead : Contains (str.data.takeWhile (fun c => !decide (c = '{'))) '}' = false) :
    ((ReplaceTags Get str input).2 = some (.New "tag not found") ↔
      ∃ t ∈ innermostTags str, Get input t = none) ∧
    ((∃ t ∈ innermostTags str, Get input t = none) →
      ReplaceTags Get str input = ("", some (.New "tag not found"))) := by
  have htags : GetTagsFromString str = innermostTags str := by
    rw [GetTagsFromString_eq_scan_open, innermostTags, scanInnermost_lead str.data [] hlead]
  have h := ReplaceTags_error_iff Get str input
  rw [htags] at h
  exact ⟨h.1, h.2.1⟩

/-- Witness of C12, amended: the second placeholder of `p {b} q {nope}` has a path the
payload lacks; the result is the empty string and the error, although `{b}` was
substituted before. -/
theorem ReplaceTags_error_iff_placeholder_witness :
    Contains ("p \x7bb\x7d q \x7bnope\x7d".data.takeWhile (fun c => !decide (c = '{'))) '}' =
      false ∧
    ReplaceTags sampleGet "p \x7bb\x7d q \x7bnope\x7d" "\x7b\"b\":\"v\",\"xvy\":\"Z\"\x7d" =
      ("", some (.New "tag not found")) :=
  ⟨by decide,
   (ReplaceTags_error_iff_placeholder sampleGet "p \x7bb\x7d q \x7bnope\x7d"
      "\x7b\"b\":\"v\",\"xvy\":\"Z\"\x7d" (by decide)).2 ⟨"nope", by decide, by decide⟩⟩

/-- C12, as stated, fails: on `{x{b}` the text between the first `{` and the next `}`
is `x{b`, a path the payload lacks, and `ReplaceTags` returns `{xv` without error; on
`a} {b}` the only placeholder is `{b}`, whose path exists, and `ReplaceTags` returns
the error `tag not found`, for the text `a` before the first `{`. -/
theorem ReplaceTags_error_mismatch :
    wrappedTags "\x7bx\x7bb\x7d" = ["x\x7bb"] ∧
    sampleGet "\x7b\"b\":\"v\",\"xvy\":\"Z\"\x7d" "x\x7bb" = none ∧
    ReplaceTags sampleGet "\x7bx\x7bb\x7d" "\x7b\"b\":\"v\",\"xvy\":\"Z\"\x7d" =
      ("\x7bxv", none) ∧
    wrappedTags "a\x7d \x7bb\x7d" = ["b"] ∧
    sampleGet "\x7b\"b\":\"v\",\"xvy\":\"Z\"\x7d" "b" = some "v" ∧
    ReplaceTags sampleGet "a\x7d \x7bb\x7d" "\x7b\"b\":\"v\",\"xvy\":\"Z\"\x7d" =
      ("", some (.New "tag not found")) := by
  decide

end string_utils

/-! ## properties of MapTo and WithCustomBaseURL -/

namespace rest

/-- The calls of `send` write the cache of a client, never its `Config`. -/
theorem send_Config (w : World) (s : Sys) (r : Request) (c : Nat) (url : String)
    (req : HttpRequest) (c' : Nat) :
    ((send w s r c url req).2.clients c').Config = (s.clients c').Config := by
  unfold send
  simp only
  split
  · rfl
  · split
    · rfl
    · split
      · rfl
      · split
        · split
          · rfl
          · simp only [Sys.setClient]
            by_cases h : c' = c
            · simp [h]
            · simp [h]
        · rfl

/-- The calls of `build` leave the `Config` of every client. -/
theorem build_Config (w : World) (s : Sys) (r : Request) (c : Nat) (url : String)
    (ctx : Option Context) (c' : Nat) :
    ((build w s r c url ctx).2.clients c').Config = (s.clients c').Config := by
  unfold build
  cases hB : r.Body with
  | none =>
    simp only []
    cases hN : w.NewRequest r.Method url none <;> cases hcx : r.ctx <;> cases ctx <;>
      simp only [send_Config]
  | some b =>
    simp only []
    cases hM : w.Marshal b with
    | error e => rfl
    | ok bytes =>
      simp only []
      cases hN : w.NewRequest r.Method url (some bytes) <;> cases hcx : r.ctx <;> cases ctx <;>
        simp only [send_Config]

/-- The mock layer leaves the clients. -/
theorem handleMockRequest_clients (s : Sys) (r : Request) (url method : String) :
    (handleMockRequest s r url method).2.clients = s.clients := by
  unfold handleMockRequest
  by_cases hm : r.isMocked = true
  · simp only [hm, if_true]
    cases hf : s.mockCalls (method ++ url) with
    | none =>
      cases ht : r.t with
      | none => simp
      | some tid =>
        simp only [Option.isSome_none, Bool.false_eq_true, if_false, Option.map_some']
        split
        · rfl
        · split <;> rfl
    | some m =>
      simp only [Option.isSome_some, if_true]
      split
      · rfl
      · split <;> rfl
  · simp [hm]

/-- A call of `Do` leaves the `Config` of every client. -/
theorem Do_Config (w : World) (s : Sys) (r : Request) (c' : Nat) :
    ((r.Do w s).2.clients c').Config = (s.clients c').Config := by
  unfold Request.Do
  by_cases hm : r.isMocked = true
  · simp only [hm, if_true, handleMockRequest_clients]
  · have hm' : r.isMocked = false := by simpa using hm
    simp only [hm', Bool.false_eq_true, if_false]
    cases hc : r.client with
    | none => rfl
    | some c =>
      simp only []
      cases cacheRead s r c ((s.clients c).Config.BaseURL ++ r.URL) with
      | hit res => rfl
      | panic why => rfl
      | miss =>
        simp only []
        cases callContext s r with
        | error why => rfl
        | ok ctx => exact build_Config _ _ _ _ _ _ _

/-- A run of calls of `Do` leaves the `Config` of every client. -/
theorem doAll_Config (w : World) (rs : List Request) :
    ∀ (s : Sys) (c' : Nat), ((doAll w s rs).clients c').Config = (s.clients c').Config := by
  induction rs with
  | nil => intro s c'; rfl
  | cons r rs ih =>
    intro s c'
    have : doAll w s (r :: rs) = doAll w (r.Do w s).2 rs := by simp [doAll]
    rw [this, ih, Do_Config]


/-- C13, amended: for every Response, `MapTo` fails with the error `response body is nil`
when the body is `nil`, and for every other body, the empty one included, returns
exactly the outcome of the JSON decoder on that body: its error when decoding fails,
no error when it succeeds. -/
theorem MapTo_outcome (Unmarshal : String → Option GoValue → Option GoError) (r : Response)
    (bindTo : Option GoValue) :
    (r.BodyBytes = none → r.MapTo Unmarshal bindTo = some (.New "response body is nil")) ∧
    (∀ bodyBytes : String, r.BodyBytes = some bodyBytes →
      r.MapTo Unmarshal bindTo = Unmarshal bodyBytes bindTo) := by
  constructor
  · intro h; simp [Response.MapTo, h]
  · intro b h
    simp only [Response.MapTo, h]
    cases Unmarshal b bindTo <;> rfl

/-- Witness of C13, amended: a Response with a JSON body, and one without body. -/
theorem MapTo_outcome_witness :
    ({ StatusCode := 200, BodyBytes := some "\x7b\"id\":1\x7d" } : Response).MapTo
        sampleUnmarshal (some { id := "user" }) = none ∧
    ({ StatusCode := 500 } : Response).MapTo sampleUnmarshal (some { id := "user" }) =
      some (.New "response body is nil") :=
  ⟨((MapTo_outcome sampleUnmarshal { StatusCode := 200, BodyBytes := some "\x7b\"id\":1\x7d" }
      (some { id := "user" })).2 _ rfl).trans (by decide),
   (MapTo_outcome sampleUnmarshal { StatusCode := 500 } (some { id := "user" })).1 rfl⟩

/-- C13, as stated, fails: `Do` on a mock registered with an empty JSON body returns a
Response whose body is empty and not `nil`, and `MapTo` on it returns the decoder's
error `unexpected end of JSON input`, not `response body is nil`. -/
theorem MapTo_empty_body :
    ((MockClient.Get {} "/empty").Do sampleWorld
        (SetMockCall (NewDefaultMockClient sampleSys none).2 "GET" "/empty"
          { StatusCode := 204, JSONBody := "" })).1 =
      .returned (some { StatusCode := 204, BodyBytes := some "" }) ∧
    ({ StatusCode := 204, BodyBytes := some "" } : Response).MapTo sampleUnmarshal
        (some { id := "user" }) = some (.New "unexpected end of JSON input") := by
  decide

/-- A call of `send` appends its request to the requests that went out. -/
theorem send_sent (w : World) (s : Sys) (r : Request) (c : Nat) (url : String)
    (req : HttpRequest) : (send w s r c url req).2.sent = s.sent ++ [req] := by
  unfold send
  simp only
  split
  · rfl
  · split
    · rfl
    · split
      · rfl
      · split
        · split <;> rfl
        · rfl

/-- A call of `build` that lets a request out has built it, through the request
constructor, for the method of the request and the url it was given. -/
theorem build_sent (w : World) (s : Sys) (r : Request) (c : Nat) (url : String)
    (ctx : Option Context) (h : (build w s r c url ctx).2.sent ≠ s.sent) :
    ∃ body base, w.NewRequest r.Method url body = .ok base ∧
      ((build w s r c url ctx).2.sent = s.sent ++ [applyHeaders w r base] ∨
        ∃ cx, (build w s r c url ctx).2.sent =
          s.sent ++ [applyHeaders w r { base with ctx := cx }]) := by
  unfold build at h ⊢
  cases hB : r.Body with
  | none =>
    simp only [hB] at h ⊢
    cases hN : w.NewRequest r.Method url none with
    | error e => cases hcx : r.ctx <;> cases ctx <;> simp [hN, hcx] at h
    | ok base =>
      refine ⟨none, base, hN, ?_⟩
      cases hcx : r.ctx <;> cases ctx <;> simp only [hN, hcx] at h ⊢ <;>
        first
        | exact absurd rfl h
        | exact Or.inl (send_sent _ _ _ _ _ _)
        | exact Or.inr ⟨_, send_sent _ _ _ _ _ _⟩
  | some b =>
    simp only [hB] at h ⊢
    cases hM : w.Marshal b with
    | error e => simp [hM] at h
    | ok bytes =>
      simp only [hM] at h ⊢
      cases hN : w.NewRequest r.Method url (some bytes) with
      | error e => cases hcx : r.ctx <;> cases ctx <;> simp [hN, hcx] at h
      | ok base =>
        refine ⟨some bytes, base, hN, ?_⟩
        cases hcx : r.ctx <;> cases ctx <;> simp only [hN, hcx] at h ⊢ <;>
          first
          | exact absurd rfl h
          | exact Or.inl (send_sent _ _ _ _ _ _)
          | exact Or.inr ⟨_, send_sent _ _ _ _ _ _⟩

/-- A call of `Do` of a non-mocked request of the client `c` that lets a request out
has built it for the url `BaseURL + r.URL`, with the base URL the client has then. -/
theorem Do_sent (w : World) (s : Sys) (r : Request) (c : Nat) (hm : r.isMocked = false)
    (hc : r.client = some c) (h : (r.Do w s).2.sent ≠ s.sent) :
    ∃ body base,
      w.NewRequest r.Method ((s.clients c).Config.BaseURL ++ r.URL) body = .ok base ∧
      ((r.Do w s).2.sent = s.sent ++ [applyHeaders w r base] ∨
        ∃ cx, (r.Do w s).2.sent = s.sent ++ [applyHeaders w r { base with ctx := cx }]) := by
  simp only [Request.Do, hm, hc, Bool.false_eq_true, if_false] at h ⊢
  cases hcr : cacheRead s r c ((s.clients c).Config.BaseURL ++ r.URL) with
  | hit res => simp [hcr] at h
  | panic why => simp [hcr] at h
  | miss =>
    simp only [hcr] at h ⊢
    cases hcc : callContext s r with
    | error why => simp [hcc] at h
    | ok ctx =>
      simp only [hcc] at h ⊢
      exact build_sent w s r c _ ctx h

/-- A call of `Do` of a cached, non-mocked request of the client `c` whose cache holds
an unexpired Response under the key `r.Method + BaseURL + r.URL` returns that Response
and leaves the state. -/
theorem Do_hit (w : World) (s : Sys) (r : Request) (c : Nat)
    (mc : cache.MemoryCache CacheValue) (res : Response) (e : Int)
    (hm : r.isMocked = false) (hc : r.client = some c) (hcached : r.cached = true)
    (hcache : (s.clients c).Cache = some mc)
    (hentry : mc.cCache.Get (r.Method ++ ((s.clients c).Config.BaseURL ++ r.URL)) =
      some { value := some (.response res), expires := e })
    (hfresh : s.now ≤ e) :
    r.Do w s = (.returned (some res), s) := by
  have hget : (mc.Get s.now s.now (r.Method ++ ((s.clients c).Config.BaseURL ++ r.URL))).2 =
      some (.response res) := by
    rw [cache.Get_of_entry _ _ _ _ _ hentry]
    have : ¬ (e < s.now) := by omega
    simp [this]
  simp only [Request.Do, hm, hc, Bool.false_eq_true, if_false, cacheRead, hcached, if_true,
    hcache, hget]

/-- C14: `WithCustomBaseURL(b)` returns the request as it is; on a request of the client
`c` it sets `Config.BaseURL` of that client to `b` and leaves the rest of the client
and every other client; and after any run of calls of `Do`, every non-mocked request
`r2` of the client `c` (built before or after) is executed with the target URL
`b + r2.URL`: with caching on, an unexpired Response held by the client's cache under
the key `r2.Method + b + r2.URL` is returned without any other effect; a request that
goes out was built by the request constructor for `r2.Method` and `b + r2.URL`; a
Response fetched with caching on is stored under the key `r2.Method + b + r2.URL`;
and the whole call is the pipeline of cache read, context and `build` at the url
`b + r2.URL`. On a request with no client it changes nothing. -/
theorem WithCustomBaseURL_effect (w : World) (s : Sys) (r : Request) (b : String) :
    (r.WithCustomBaseURL s b).1 = r ∧
    (∀ c : Nat, r.client = some c →
      ((r.WithCustomBaseURL s b).2.clients c).Config =
        { (s.clients c).Config with BaseURL := b } ∧
      ((r.WithCustomBaseURL s b).2.clients c).Cache = (s.clients c).Cache ∧
      (∀ c' : Nat, c' ≠ c → (r.WithCustomBaseURL s b).2.clients c' = s.clients c') ∧
      (∀ (rs : List Request) (r2 : Request), r2.isMocked = false → r2.client = some c →
        (∀ (mc : cache.MemoryCache CacheValue) (res : Response) (e : Int),
          r2.cached = true →
          ((doAll w (r.WithCustomBaseURL s b).2 rs).clients c).Cache = some mc →
          mc.cCache.Get (r2.Method ++ (b ++ r2.URL)) =
            some { value := some (.response res), expires := e } →
          (doAll w (r.WithCustomBaseURL s b).2 rs).now ≤ e →
          r2.Do w (doAll w (r.WithCustomBaseURL s b).2 rs) =
            (.returned (some res), doAll w (r.WithCustomBaseURL s b).2 rs)) ∧
        ((r2.Do w (doAll w (r.WithCustomBaseURL s b).2 rs)).2.sent ≠
            (doAll w (r.WithCustomBaseURL s b).2 rs).sent →
          ∃ body base, w.NewRequest r2.Method (b ++ r2.URL) body = .ok base ∧
            ((r2.Do w (doAll w (r.WithCustomBaseURL s b).2 rs)).2.sent =
                (doAll w (r.WithCustomBaseURL s b).2 rs).sent ++ [applyHeaders w r2 base] ∨
              ∃ cx, (r2.Do w (doAll w (r.WithCustomBaseURL s b).2 rs)).2.sent =
                (doAll w (r.WithCustomBaseURL s b).2 rs).sent ++
                  [applyHeaders w r2 { base with ctx := cx }])) ∧
        (∀ (resp : Response) (s3 : Sys), r2.cached = true →
          r2.Do w (doAll w (r.WithCustomBaseURL s b).2 rs) = (.returned (some resp), s3) →
          s3.sent ≠ (doAll w (r.WithCustomBaseURL s b).2 rs).sent → resp.Error = none →
          ∃ mc, ((doAll w (r.WithCustomBaseURL s b).2 rs).clients c).Cache = some mc ∧
            (s3.clients c).Cache =
              some (mc.SaveWithTTL s3.now (r2.Method ++ (b ++ r2.URL))
                (some (.response resp)) r2.cacheTTL)) ∧
        r2.Do w (doAll w (r.WithCustomBaseURL s b).2 rs) =
          match cacheRead (doAll w (r.WithCustomBaseURL s b).2 rs) r2 c (b ++ r2.URL) with
          | .hit res => (.returned (some res), doAll w (r.WithCustomBaseURL s b).2 rs)
          | .panic why => (.panicked why, doAll w (r.WithCustomBaseURL s b).2 rs)
          | .miss =>
            match callContext (doAll w (r.WithCustomBaseURL s b).2 rs) r2 with
            | .error why => (.panicked why, doAll w (r.WithCustomBaseURL s b).2 rs)
            | .ok ctx =>
              build w (doAll w (r.WithCustomBaseURL s b).2 rs) r2 c (b ++ r2.URL) ctx)) ∧
    (r.client = none → (r.WithCustomBaseURL s b).2 = s) := by
  refine ⟨?_, ?_, ?_⟩
  · unfold Request.WithCustomBaseURL
    cases r.client <;> rfl
  · intro c hc
    have hs : (r.WithCustomBaseURL s b).2 =
        s.setClient c { s.clients c with Config := { (s.clients c).Config with BaseURL := b } } := by
      simp [Request.WithCustomBaseURL, hc]
    refine ⟨by simp [hs, Sys.setClient], by simp [hs, Sys.setClient], ?_, ?_⟩
    · intro c' hc'
      simp [hs, Sys.setClient, hc']
    · intro rs r2 hm2 hc2
      have hB : ((doAll w (r.WithCustomBaseURL s b).2 rs).clients c).Config.BaseURL = b := by
        rw [doAll_Config]
        simp [hs, Sys.setClient]
      refine ⟨?_, ?_, ?_, ?_⟩
      · intro mc res e hcached hcache hentry hfresh
        exact Do_hit w _ r2 c mc res e hm2 hc2 hcached hcache (by rw [hB]; exact hentry) hfresh
      · intro hsent
        have := Do_sent w _ r2 c hm2 hc2 hsent
        rw [hB] at this
        exact this
      · intro resp s3 hcached hdo hsent herr
        obtain ⟨mc, hmc, hs3⟩ := Do_fetched_inv w _ s3 r2 c resp hm2 hc2 hcached hdo hsent herr
        refine ⟨mc, hmc, ?_⟩
        rw [hs3, hB]
      · simp only [Request.Do, hm2, hc2, Bool.false_eq_true, if_false, hB]
  · intro hc
    simp [Request.WithCustomBaseURL, hc]

/-- Witness of C14: the base URL set through one request of the default client, then a
`GET /y` built from the same client goes out to `http://h/y`. -/
theorem WithCustomBaseURL_effect_witness :
    (((RestClient.Get 0 "/x").WithCustomBaseURL sampleSys "http://h").2.clients 0).Config =
      { BaseURL := "http://h" } ∧
    ((RestClient.Get 0 "/y").Do sampleWorld
      ((RestClient.Get 0 "/x").WithCustomBaseURL sampleSys "http://h").2).2.sent =
      [{ Method := "GET", URL := "http://h/y", Body := none }] :=
  ⟨((WithCustomBaseURL_effect sampleWorld sampleSys (RestClient.Get 0 "/x") "http://h").2.1
      0 rfl).1,
   by decide⟩

end rest

end GoLib
